import Mathlib

/-!
Shallow embedding of the metadata-enrichment core of the Hans Gross
Kriminalmuseum archive tooling (files enhance_metadata.py and
enhance_metadata_v2.py), together with theorems settling the frozen claims
about it.

Python strings are modelled as `List Char` (code points); the Python `re`
module is modelled by a total backtracking matcher `matchL` that returns the
list of all possible match outcomes in backtracking preference order, so
that the head of the list is exactly the match Python would produce.
`re.findall` and `re.search` are built on top of it.  Machine text values,
set-then-sort idioms, and the statistics counters are embedded faithfully
from the source; floats are modelled as rationals.
-/

namespace KM

/-! ### Character classes (by code point, matching Python `re` on the texts involved) -/

/-- Decimal digit, Python `\d` on ASCII input. -/
def isDigitC (c : Char) : Bool := 48 ≤ c.toNat && c.toNat ≤ 57

/-- Whitespace, Python `\s`. -/
def isWsC (c : Char) : Bool :=
  c.toNat = 32 || c.toNat = 9 || c.toNat = 10 || c.toNat = 13 || c.toNat = 11 || c.toNat = 12

/-- Word character, Python `\w`, restricted to the German letter repertoire
of the archive texts (ASCII alphanumerics, underscore, umlauts and sharp s). -/
def isWordC (c : Char) : Bool :=
  isDigitC c || (65 ≤ c.toNat && c.toNat ≤ 90) || (97 ≤ c.toNat && c.toNat ≤ 122) ||
  c.toNat = 95 || c.toNat = 196 || c.toNat = 214 || c.toNat = 220 ||
  c.toNat = 228 || c.toNat = 246 || c.toNat = 252 || c.toNat = 223

/-- The class `[A-ZÄÖÜ]` (case sensitive). -/
def isUpperDE (c : Char) : Bool :=
  (65 ≤ c.toNat && c.toNat ≤ 90) || c.toNat = 196 || c.toNat = 214 || c.toNat = 220

/-- The class `[a-zäöüß]` (case sensitive). -/
def isLowerDE (c : Char) : Bool :=
  (97 ≤ c.toNat && c.toNat ≤ 122) || c.toNat = 228 || c.toNat = 246 || c.toNat = 252 ||
  c.toNat = 223

/-- The class `[a-z]` (case sensitive); Python's `[a-zander]` and `[a-zund]`
both denote exactly this set. -/
def isAZlow (c : Char) : Bool := 97 ≤ c.toNat && c.toNat ≤ 122

/-- The class `[A-ZÄÖÜ]` under `re.IGNORECASE`: both cases of every member
(the sharp s has no single-character uppercase, so it is not included). -/
def isUpperDECI (c : Char) : Bool :=
  isUpperDE c || (97 ≤ c.toNat && c.toNat ≤ 122) || c.toNat = 228 || c.toNat = 246 ||
  c.toNat = 252

/-- The class `[a-zäöüß]` under `re.IGNORECASE`. -/
def isLowerDECI (c : Char) : Bool := isLowerDE c || isUpperDE c

/-- The class `[a-z]` under `re.IGNORECASE`. -/
def isAZCI (c : Char) : Bool := isAZlow c || (65 ≤ c.toNat && c.toNat ≤ 90)

/-- The class `[A-Za-zäöüß]` under `re.IGNORECASE` (adds the uppercase umlauts). -/
def isProfC (c : Char) : Bool := isLowerDE c || isUpperDE c

/-- The class `[\d,.-]` used by the caliber pattern. -/
def isCalC (c : Char) : Bool := isDigitC c || c.toNat = 44 || c.toNat = 46 || c.toNat = 45

/-- The date-separator class of the patterns: dot, forward slash or dash. -/
def isSepC (c : Char) : Bool := c.toNat = 46 || c.toNat = 47 || c.toNat = 45

/-- The class `[\s-]` of the location word-pair patterns. -/
def isWsDash (c : Char) : Bool := isWsC c || c.toNat = 45

/-- Lowercasing of a single character as Python `str.lower` acts on the
German repertoire (ASCII letters and umlauts; other characters unchanged). -/
def toLowerDE (c : Char) : Char :=
  if 65 ≤ c.toNat && c.toNat ≤ 90 then Char.ofNat (c.toNat + 32)
  else if c.toNat = 196 then Char.ofNat 228
  else if c.toNat = 214 then Char.ofNat 246
  else if c.toNat = 220 then Char.ofNat 252
  else c

/-- Case-insensitive equality of characters, for literals compiled with
`re.IGNORECASE`. -/
def ciEq (a b : Char) : Bool := toLowerDE a == toLowerDE b

/-! ### Small string helpers -/

/-- Python `str.lower` on a list of characters. -/
def toLowerL (l : List Char) : List Char := l.map toLowerDE

/-- Python `str.strip()` (remove leading and trailing whitespace). -/
def stripC (l : List Char) : List Char :=
  ((l.dropWhile isWsC).reverse.dropWhile isWsC).reverse

/-- Python `int` on a string of decimal digits. -/
def parseNat (l : List Char) : Nat := l.foldl (fun n c => n * 10 + (c.toNat - 48)) 0

/-- Whether `pre` is an initial segment of `l` (used for substring search). -/
def leadSeg : List Char → List Char → Bool
  | [], _ => true
  | _ :: _, [] => false
  | a :: as, b :: bs => (a == b) && leadSeg as bs

/-- Python substring containment `needle in hay`. -/
def containsSub (hay needle : List Char) : Bool :=
  match hay with
  | [] => leadSeg needle []
  | _ :: rest => leadSeg needle hay || containsSub rest needle

/-- Index of the first occurrence of `needle` in `hay`, if any
(Python `str.find` when non-negative). -/
def firstOcc (hay needle : List Char) : Option Nat :=
  match hay with
  | [] => if leadSeg needle [] then some 0 else none
  | _ :: rest =>
    if leadSeg needle hay then some 0
    else (firstOcc rest needle).map (· + 1)

/-- Python `str.endswith` for a single suffix. -/
def endsWithL (l suffix : List Char) : Bool := leadSeg suffix.reverse l.reverse

/-- Python `str.endswith` on a tuple of suffixes. -/
def endsWithAny (l : List Char) (sufs : List (List Char)) : Bool :=
  sufs.any (endsWithL l)

/-! ### The regular-expression engine

`RE` is the fragment of Python regular-expression syntax the source uses:
character classes, concatenation, alternation, greedy option, greedy and
lazy star, one capture group, word boundaries and the end anchor.  `matchL`
lists every way the expression can match a leading segment of the input, in
backtracking preference order; Python's match is the head of that list.
An outcome records the character just before the remaining input (for word
boundaries), the remaining input, and the capture seen so far. -/

inductive RE where
  | eps : RE
  | cls : (Char → Bool) → RE
  | cat : RE → RE → RE
  | alt : RE → RE → RE
  | opt : RE → RE
  | star : RE → RE
  | starL : RE → RE
  | grp : RE → RE
  | bnd : RE
  | eos : RE

/-- One match outcome: (previous character, remaining input, capture). -/
abbrev MOut := Option Char × List Char × Option (List Char)

/-- Word-character test on the optional previous/next character. -/
def isWordO : Option Char → Bool
  | none => false
  | some c => isWordC c

/-- Greedy star iteration: outcomes of running the body matcher `m` zero or
more times, consuming alternatives first.  `fuel` bounds the number of
iterations; since every star body in the source consumes at least one
character, `fuel ≥ s.length + 1` reproduces Python exactly. -/
def starG (m : Option Char → List Char → Option (List Char) → List MOut) :
    Nat → Option Char → List Char → Option (List Char) → List MOut
  | 0, prev, s, cap => [(prev, s, cap)]
  | f + 1, prev, s, cap =>
    ((m prev s cap).flatMap fun o => starG m f o.1 o.2.1 o.2.2) ++ [(prev, s, cap)]

/-- Lazy star iteration: the empty match comes first. -/
def starLG (m : Option Char → List Char → Option (List Char) → List MOut) :
    Nat → Option Char → List Char → Option (List Char) → List MOut
  | 0, prev, s, cap => [(prev, s, cap)]
  | f + 1, prev, s, cap =>
    (prev, s, cap) :: ((m prev s cap).flatMap fun o => starLG m f o.1 o.2.1 o.2.2)

/-- All outcomes of matching `re` against a leading segment of `s`, in
backtracking preference order.  Greedy operators list the consuming
alternative first, lazy ones last; alternation lists the left branch
first; the head of the list is the match Python produces. -/
def matchL : RE → Nat → Option Char → List Char → Option (List Char) → List MOut
  | .eps, _, prev, s, cap => [(prev, s, cap)]
  | .cls p, _, _, s, cap =>
    match s with
    | [] => []
    | c :: s' => if p c then [(some c, s', cap)] else []
  | .cat a b, fuel, prev, s, cap =>
    (matchL a fuel prev s cap).flatMap fun o => matchL b fuel o.1 o.2.1 o.2.2
  | .alt a b, fuel, prev, s, cap =>
    matchL a fuel prev s cap ++ matchL b fuel prev s cap
  | .opt a, fuel, prev, s, cap => matchL a fuel prev s cap ++ [(prev, s, cap)]
  | .star a, fuel, prev, s, cap => starG (matchL a fuel) fuel prev s cap
  | .starL a, fuel, prev, s, cap => starLG (matchL a fuel) fuel prev s cap
  | .grp a, fuel, prev, s, cap =>
    (matchL a fuel prev s cap).map fun o =>
      (o.1, o.2.1, some (s.take (s.length - o.2.1.length)))
  | .bnd, _, prev, s, cap =>
    if isWordO prev != isWordO s.head? then [(prev, s, cap)] else []
  | .eos, _, prev, s, cap =>
    match s with
    | [] => [(prev, s, cap)]
    | _ :: _ => []

/-- The match Python produces at the current position, if any. -/
def firstMatch (re : RE) (prev : Option Char) (s : List Char) : Option MOut :=
  (matchL re (s.length + 1) prev s none).head?

/-- The scanning loop of `re.finditer`/`re.findall`: try a match at the
current position, emit its capture (the whole match for group-free
patterns wrapped in `grp`) and continue after it, else advance one
character. -/
def findallFrom : Nat → RE → Option Char → List Char → List (List Char)
  | 0, _, _, _ => []
  | fuel + 1, re, prev, s =>
    match firstMatch re prev s with
    | some (p', s', cap) =>
      if s'.length < s.length then cap.getD [] :: findallFrom fuel re p' s'
      else
        match s with
        | [] => [cap.getD []]
        | c :: rest => cap.getD [] :: findallFrom fuel re (some c) rest
    | none =>
      match s with
      | [] => []
      | c :: rest => findallFrom fuel re (some c) rest

/-- Python `re.findall(pattern, s)` returning the group-1 captures. -/
def findall (re : RE) (s : List Char) : List (List Char) :=
  findallFrom (s.length + 1) re none s

/-- The scanning loop of `re.search`: capture of the first match, if any. -/
def searchFrom : Nat → RE → Option Char → List Char → Option (Option (List Char))
  | 0, _, _, _ => none
  | fuel + 1, re, prev, s =>
    match firstMatch re prev s with
    | some (_, _, cap) => some cap
    | none =>
      match s with
      | [] => none
      | c :: rest => searchFrom fuel re (some c) rest

/-- Python `re.search(pattern, s)`: `some cap` when a match exists
(`cap` is group 1 when the pattern has a group). -/
def research (re : RE) (s : List Char) : Option (Option (List Char)) :=
  searchFrom (s.length + 1) re none s

/-! ### Pattern construction helpers -/

/-- Concatenation of a list of expressions. -/
def seqRE (l : List RE) : RE := l.foldr RE.cat RE.eps

/-- Alternation over a nonempty list, left preference first. -/
def altN : List RE → RE
  | [] => RE.eps
  | [r] => r
  | r :: rs => RE.alt r (altN rs)

/-- A single literal character (case sensitive). -/
def chrRE (c : Char) : RE := RE.cls (· == c)

/-- A single literal character compiled with `re.IGNORECASE`. -/
def chrCI (c : Char) : RE := RE.cls (ciEq c)

/-- A case-sensitive literal string. -/
def litRE (s : String) : RE := seqRE (s.data.map chrRE)

/-- A literal string compiled with `re.IGNORECASE`. -/
def litCI (s : String) : RE := seqRE (s.data.map chrCI)

/-- A literal list of characters compiled with `re.IGNORECASE`
(for the `re.escape(name)` sub-patterns of the person extractor). -/
def litCIL (l : List Char) : RE := seqRE (l.map chrCI)

/-- `x+` (greedy). -/
def plusRE (r : RE) : RE := RE.cat r (RE.star r)

/-- `\d{4}`. -/
def d4 : RE := seqRE [RE.cls isDigitC, RE.cls isDigitC, RE.cls isDigitC, RE.cls isDigitC]

/-- `\d{1,2}` (greedy, two digits preferred). -/
def d12 : RE := RE.cat (RE.cls isDigitC) (RE.opt (RE.cls isDigitC))

/-- `.` under `re.DOTALL`. -/
def anyC : RE := RE.cls (fun _ => true)

/-- `\s*`. -/
def wsS : RE := RE.star (RE.cls isWsC)

/-- `\s+`. -/
def wsP : RE := plusRE (RE.cls isWsC)

/-! ### The data model -/

/-- An input record as the enrichment engine sees it: the five named text
fields, absent fields modelled as the empty string (Python `item.get(k, '')`). -/
structure Item where
  title : String := ""
  description : String := ""
  fulltext : String := ""
  container : String := ""
  identifier : String := ""
deriving DecidableEq

/-- A person record produced by `extract_persons_advanced`; missing
attributes are omitted (`none`), exactly as the Python dict omits the keys. -/
structure Person where
  name : String
  age : Option Nat := none
  profession : Option String := none
  birth_year : Option Nat := none
deriving DecidableEq

/-- The combined text `f"{text or ''} {description or ''}"`. -/
def combinedText (text description : String) : List Char :=
  text.data ++ ' ' :: description.data

/-! ### Year extraction, version 2 (`extract_historical_year_advanced`)

The ten `(pattern, context)` rules of strategy 1, transcribed from
`patterns_with_context`; all are compiled with `re.IGNORECASE`. -/

/-- `geb(?:oren)?\.?\s*(?:am\s+)?(?:\d{1,2}[sep]\d{1,2}[sep])?(\d{4})` tagged `birth`. -/
def reBirth1 : RE :=
  seqRE [litCI "geb", RE.opt (litCI "oren"), RE.opt (chrRE '.'), wsS,
    RE.opt (RE.cat (litCI "am") wsP),
    RE.opt (seqRE [d12, RE.cls isSepC, d12, RE.cls isSepC]), RE.grp d4]

/-- `geb(?:oren)?\.?\s*(?:\d{1,2}\.?\s*\w+\s+)?(\d{4})` tagged `birth`. -/
def reBirth2 : RE :=
  seqRE [litCI "geb", RE.opt (litCI "oren"), RE.opt (chrRE '.'), wsS,
    RE.opt (seqRE [d12, RE.opt (chrRE '.'), wsS, plusRE (RE.cls isWordC), wsP]), RE.grp d4]

/-- `\*\s*(\d{4})` tagged `birth`. -/
def reBirth3 : RE := seqRE [chrRE '*', wsS, RE.grp d4]

/-- `(?:gest(?:orben)?|†)\s*(\d{4})` tagged `death`. -/
def reDeath : RE :=
  seqRE [RE.alt (RE.cat (litCI "gest") (RE.opt (litCI "orben"))) (chrRE '†'), wsS, RE.grp d4]

/-- `(?:im\s+(?:Jahr|Jahre)\s+)?(\d{4})` tagged `crime`. -/
def reCrime1 : RE :=
  seqRE [RE.opt (seqRE [litCI "im", wsP, RE.alt (litCI "Jahr") (litCI "Jahre"), wsP]),
    RE.grp d4]

/-- `(?:Januar|…|Dezember)\s+(\d{4})` tagged `crime`. -/
def reCrime2 : RE :=
  seqRE [altN [litCI "Januar", litCI "Februar", litCI "März", litCI "April",
    litCI "Mai", litCI "Juni", litCI "Juli", litCI "August", litCI "September",
    litCI "Oktober", litCI "November", litCI "Dezember"], wsP, RE.grp d4]

/-- `Urteil\s+v(?:om)?\.?\s*\d{1,2}[sep]\d{1,2}[sep](\d{4})` tagged `court`. -/
def reCourt1 : RE :=
  seqRE [litCI "Urteil", wsP, litCI "v", RE.opt (litCI "om"), RE.opt (chrRE '.'), wsS,
    d12, RE.cls isSepC, d12, RE.cls isSepC, RE.grp d4]

/-- `verurteilt\s+(\d{4})` tagged `court`. -/
def reCourt2 : RE := seqRE [litCI "verurteilt", wsP, RE.grp d4]

/-- `\d{1,2}[sep]\d{1,2}[sep](\d{4})` tagged `date`. -/
def reDate1 : RE := seqRE [d12, RE.cls isSepC, d12, RE.cls isSepC, RE.grp d4]

/-- `(\d{4})[sep]\d{1,2}[sep]\d{1,2}` tagged `date`. -/
def reDate2 : RE := seqRE [RE.grp d4, RE.cls isSepC, d12, RE.cls isSepC, d12]

/-- The ordered `patterns_with_context` list. -/
def patternsWithContext : List (RE × String) :=
  [(reBirth1, "birth"), (reBirth2, "birth"), (reBirth3, "birth"),
   (reDeath, "death"),
   (reCrime1, "crime"), (reCrime2, "crime"),
   (reCourt1, "court"), (reCourt2, "court"),
   (reDate1, "date"), (reDate2, "date")]

/-- `\b(18[5-9]\d|19[0-4]\d)\b`, the bare-year scan of strategy 2. -/
def reSimpleYear : RE :=
  seqRE [RE.bnd,
    RE.grp (RE.alt
      (seqRE [chrRE '1', chrRE '8', RE.cls (fun c => 53 ≤ c.toNat && c.toNat ≤ 57),
        RE.cls isDigitC])
      (seqRE [chrRE '1', chrRE '9', RE.cls (fun c => 48 ≤ c.toNat && c.toNat ≤ 52),
        RE.cls isDigitC])),
    RE.bnd]

/-- `\.(\d{4})$`, the identifier-suffix pattern. -/
def reIdentYear : RE := seqRE [chrRE '.', RE.grp d4, RE.eos]

/-- `KM-(?:KK|O)\.(\d+)`, the museum-number pattern of strategy 3. -/
def reMuseumId : RE :=
  seqRE [litRE "KM-", RE.alt (litRE "KK") (litRE "O"), chrRE '.',
    RE.grp (plusRE (RE.cls isDigitC))]

/-- The candidate list `years_with_context` of strategy 1: for every rule,
every capture parsed as an integer and kept only when `1850 <= year <= 1950`. -/
def yearsWithContext (text description : String) : List (Nat × String) :=
  patternsWithContext.flatMap fun pc =>
    (findall pc.1 (combinedText text description)).filterMap fun cap =>
      if 1850 ≤ parseNat cap ∧ parseNat cap ≤ 1950 then some (parseNat cap, pc.2) else none

/-- The priority table `{'birth': 1, 'crime': 2, 'court': 3, 'death': 4, 'date': 5}`
with default 99 (`priority.get(x[1], 99)`). -/
def ctxPriority (ctx : String) : Nat :=
  if ctx = "birth" then 1
  else if ctx = "crime" then 2
  else if ctx = "court" then 3
  else if ctx = "death" then 4
  else if ctx = "date" then 5
  else 99

/-- The sort key `(priority.get(x[1], 99), x[0])` of a candidate. -/
def candKey (p : Nat × String) : Nat × Nat := (ctxPriority p.2, p.1)

/-- Lexicographic comparison of `Nat` pairs, as Python compares key tuples. -/
def pairLe (a b : Nat × Nat) : Bool :=
  decide (a.1 < b.1) || (decide (a.1 = b.1) && decide (a.2 ≤ b.2))

/-- Stable insertion into a list sorted by `le` (new element goes after
every element it is not strictly below), matching Python `list.sort` ties. -/
def insStable (le : α → α → Bool) (x : α) : List α → List α
  | [] => [x]
  | y :: ys => if le y x then y :: insStable le x ys else x :: y :: ys

/-- Stable sort by the boolean comparison `le`, as Python `list.sort(key=...)`. -/
def sortStable (le : α → α → Bool) (l : List α) : List α :=
  l.foldl (fun acc x => insStable le x acc) []

/-- The comparison used for `years_with_context.sort(key=...)`. -/
def candLe (a b : Nat × String) : Bool := pairLe (candKey a) (candKey b)

/-- Minimum of a fold, for `min(valid_years)`. -/
def natMinFold (y : Nat) (ys : List Nat) : Nat := ys.foldl Nat.min y

/-- `extract_historical_year_advanced(text, description, identifier)`;
returns `(year, source_type)` with `None` modelled as `none`. -/
def extract_historical_year_advanced (text description identifier : String) :
    Option Nat × String :=
  if text = "" ∧ description = "" then
    -- Fallback: identifier suffix such as o:km.1920
    if identifier = "" then (none, "none")
    else
      match research reIdentYear identifier.data with
      | some cap =>
        let year := parseNat (cap.getD [])
        if 1850 ≤ year ∧ year ≤ 1950 then (some year, "identifier") else (none, "none")
      | none => (none, "none")
  else
    -- Strategy 1: context-tagged year patterns over the combined text
    match sortStable candLe (yearsWithContext text description) with
    | c :: _ => (some c.1, c.2)
    | [] =>
      -- Strategy 2: bare years in the valid range, earliest wins
      let simple := (findall reSimpleYear (combinedText text description)).map parseNat
      match simple.filter (fun y => decide (1850 ≤ y) && decide (y ≤ 1950)) with
      | y :: ys => (some (natMinFold y ys), "text")
      | [] =>
        -- Strategy 3: estimate from the museum number in the description
        match research reMuseumId description.data with
        | some cap =>
          let num := parseNat (cap.getD [])
          if num < 100 then (some 1900, "estimated")
          else if num < 500 then (some 1910, "estimated")
          else if num < 1000 then (some 1920, "estimated")
          else (some 1930, "estimated")
        | none => (none, "none")

/-! ### Sorted sets

Python accumulates results in a `set` and returns `sorted(list(s))`; the
result is the strictly ascending enumeration of the member strings, ordered
by code points.  `lexLt` is that string order and `sortedSet` the
enumeration (it depends only on membership, like the Python idiom). -/

/-- Code-point lexicographic strict order on character lists, the order
Python `sorted` uses on `str`. -/
def lexLt : List Char → List Char → Bool
  | [], [] => false
  | [], _ :: _ => true
  | _ :: _, [] => false
  | a :: as, b :: bs =>
    if a.toNat < b.toNat then true
    else if b.toNat < a.toNat then false
    else lexLt as bs

/-- The same order on `String`. -/
def strLt (a b : String) : Bool := lexLt a.data b.data

/-- Insert into a strictly ascending list, dropping an exact duplicate. -/
def insortD (x : List Char) : List (List Char) → List (List Char)
  | [] => [x]
  | y :: ys =>
    if lexLt y x then y :: insortD x ys
    else if lexLt x y then x :: y :: ys
    else y :: ys

/-- `sorted(list(set(l)))`: strictly ascending, duplicate-free enumeration
of the elements of `l`. -/
def sortedSet (l : List (List Char)) : List (List Char) := l.foldr insortD []

/-! ### Crime extraction (`extract_crime_types_advanced`) -/

/-- The `crime_mapping` table of StGB paragraph numbers. -/
def crime_mapping : List (String × String) :=
  [("140", "Mord"), ("142", "Mord"),
   ("171", "Wilderei"), ("174", "Wilderei"), ("176", "Wilderei"),
   ("431", "Betrug"), ("460", "Diebstahl"), ("467", "Unterschlagung"),
   ("468", "Veruntreuung"),
   ("2", "Waffengesetz"), ("8", "Waffengesetz"), ("32", "Waffengesetz"),
   ("36", "Waffengesetz"),
   ("81", "Versuch"), ("82", "Beihilfe"),
   ("267", "Urkundenfälschung"), ("389", "Kostentragung")]

/-- Association-list lookup (Python `dict` access guarded by `in`). -/
def assocLookup (table : List (String × String)) (key : String) : Option String :=
  match table with
  | [] => none
  | kv :: rest => if kv.1 = key then some kv.2 else assocLookup rest key

/-- `§+\s*(\d+[a-z]?)` (IGNORECASE). -/
def rePara1 : RE :=
  seqRE [plusRE (chrRE '§'), wsS,
    RE.grp (RE.cat (plusRE (RE.cls isDigitC)) (RE.opt (RE.cls isAZCI)))]

/-- `§§\s*(\d+(?:\s*,\s*\d+)*)` (IGNORECASE). -/
def rePara2 : RE :=
  seqRE [chrRE '§', chrRE '§', wsS,
    RE.grp (RE.cat (plusRE (RE.cls isDigitC))
      (RE.star (seqRE [wsS, chrRE ',', wsS, plusRE (RE.cls isDigitC)])))]

/-- `nach\s+§+\s*(\d+)` (IGNORECASE). -/
def rePara3 : RE :=
  seqRE [litCI "nach", wsP, plusRE (chrRE '§'), wsS, RE.grp (plusRE (RE.cls isDigitC))]

/-- `gem(?:äß)?\.?\s*§+\s*(\d+)` (IGNORECASE). -/
def rePara4 : RE :=
  seqRE [litCI "gem", RE.opt (litCI "äß"), RE.opt (chrRE '.'), wsS,
    plusRE (chrRE '§'), wsS, RE.grp (plusRE (RE.cls isDigitC))]

/-- The ordered `paragraph_patterns` list. -/
def paragraph_patterns : List RE := [rePara1, rePara2, rePara3, rePara4]

/-- `\d+` as a pattern, for `re.findall(r'\d+', match)` on a capture. -/
def reDigitRun : RE := RE.grp (plusRE (RE.cls isDigitC))

/-- `\bWp\.?\b` (IGNORECASE). -/
def reWp : RE := seqRE [RE.bnd, litCI "Wp", RE.opt (chrRE '.'), RE.bnd]

/-- `\bWG\b` (IGNORECASE). -/
def reWG : RE := seqRE [RE.bnd, litCI "WG", RE.bnd]

/-- `\bStG\.?\b` (IGNORECASE). -/
def reStG : RE := seqRE [RE.bnd, litCI "StG", RE.opt (chrRE '.'), RE.bnd]

/-- `\bStGB\.?\b` (IGNORECASE). -/
def reStGB : RE := seqRE [RE.bnd, litCI "StGB", RE.opt (chrRE '.'), RE.bnd]

/-- `\bStPO\.?\b` (IGNORECASE). -/
def reStPO : RE := seqRE [RE.bnd, litCI "StPO", RE.opt (chrRE '.'), RE.bnd]

/-- The `law_abbreviations` table in its source order. -/
def law_abbreviations : List (RE × String) :=
  [(reWp, "Waffengesetz"), (reWG, "Waffengesetz"), (reStG, "Strafgesetz"),
   (reStGB, "Strafgesetzbuch"), (reStPO, "Strafprozessordnung")]

/-- The `crime_keywords` table in its source order. -/
def crime_keywords : List (String × String) :=
  [("mord", "Mord"), ("totschlag", "Totschlag"), ("wilderei", "Wilderei"),
   ("wilddiebstahl", "Wilderei"), ("wildern", "Wilderei"), ("wilderer", "Wilderei"),
   ("diebstahl", "Diebstahl"), ("einbruch", "Einbruchsdiebstahl"), ("raub", "Raub"),
   ("betrug", "Betrug"), ("urkundenfälschung", "Urkundenfälschung"),
   ("fälschung", "Fälschung"), ("unterschlagung", "Unterschlagung"),
   ("veruntreuung", "Veruntreuung"), ("körperverletzung", "Körperverletzung"),
   ("notzucht", "Sexualdelikt"), ("unzucht", "Sexualdelikt"),
   ("brandstiftung", "Brandstiftung"), ("sachbeschädigung", "Sachbeschädigung"),
   ("hehlerei", "Hehlerei"), ("schmuggel", "Schmuggel"),
   ("falschmünzerei", "Falschmünzerei"), ("amtsmissbrauch", "Amtsmissbrauch")]

/-- The multiset of labels added to the `crimes` set, in program order:
paragraph-table lookups, law-abbreviation hits, then keyword hits. -/
def crimeCandidates (text description : String) : List (List Char) :=
  let ct := combinedText text description
  (paragraph_patterns.flatMap fun p =>
    (findall p ct).flatMap fun cap =>
      (findall reDigitRun cap).filterMap fun num =>
        (assocLookup crime_mapping (String.mk num)).map String.data)
  ++ (law_abbreviations.flatMap fun pl =>
    if (research pl.1 ct).isSome ∧ pl.2 = "Waffengesetz" then ["Waffengesetz".data] else [])
  ++ (crime_keywords.flatMap fun kv =>
    if containsSub (toLowerL ct) kv.1.data then [kv.2.data] else [])

/-- `extract_crime_types_advanced(text, description)`. -/
def extract_crime_types_advanced (text description : String) : List String :=
  if text = "" ∧ description = "" then []
  else (sortedSet (crimeCandidates text description)).map String.mk

/-! ### Location extraction (`extract_locations_advanced`) -/

/-- The gazetteer `austrian_locations` (all lowercase). -/
def austrian_locations : List String :=
  ["wien", "graz", "linz", "salzburg", "innsbruck",
   "klagenfurt", "bregenz", "eisenstadt", "st. pölten",
   "villach", "wels", "steyr", "feldkirch", "leonding",
   "klosterneuburg", "baden", "wolfsberg", "krems",
   "traun", "amstetten", "lustenau", "kapfenberg",
   "mödling", "hallein", "kufstein", "traiskirchen",
   "schwechat", "braunau", "stockerau", "saalfelden",
   "tulln", "hohenems", "spittal", "bludenz", "gmunden",
   "ternitz", "perchtoldsdorf", "feldkirchen", "bad ischl",
   "schwaz", "hall in tirol", "wörgl",
   "leoben", "rottenmann", "oberzeiring", "brettstein",
   "bretstein", "bleiburg", "murau", "judenburg",
   "knittelfeld", "voitsberg", "deutschlandsberg",
   "hartberg", "fürstenfeld", "radkersburg",
   "feldbach", "gleisdorf", "weiz", "bruck an der mur",
   "mürzzuschlag", "mariazell", "liezen"]

/-- The capture `[A-ZÄÖÜ][a-zäöüß]+(?:\s+[a-z]+\s+[A-ZÄÖÜ][a-zäöüß]+)?`
of the first court pattern. -/
def grpTownPair : RE :=
  RE.grp (seqRE [RE.cls isUpperDE, plusRE (RE.cls isLowerDE),
    RE.opt (seqRE [wsP, plusRE (RE.cls isAZlow), wsP,
      RE.cls isUpperDE, plusRE (RE.cls isLowerDE)])])

/-- The simple capture `([A-ZÄÖÜ][a-zäöüß]+)`. -/
def grpTown : RE := RE.grp (RE.cat (RE.cls isUpperDE) (plusRE (RE.cls isLowerDE)))

/-- `(?:Bezirks|Kreis|Land|Landes)?[gG]ericht\s+(town pair)`. -/
def reLocCourt1 : RE :=
  seqRE [RE.opt (altN [litRE "Bezirks", litRE "Kreis", litRE "Land", litRE "Landes"]),
    RE.cls (fun c => c == 'g' || c == 'G'), litRE "ericht", wsP, grpTownPair]

/-- `(?:Amts|Bezirks)?[gG]ericht\s+(town)`. -/
def reLocCourt2 : RE :=
  seqRE [RE.opt (RE.alt (litRE "Amts") (litRE "Bezirks")),
    RE.cls (fun c => c == 'g' || c == 'G'), litRE "ericht", wsP, grpTown]

/-- `[gG]erichtshof\s+(town)`. -/
def reLocCourt3 : RE :=
  seqRE [RE.cls (fun c => c == 'g' || c == 'G'), litRE "erichtshof", wsP, grpTown]

/-- `LG\s+(town)`. -/
def reLocCourt4 : RE := seqRE [litRE "LG", wsP, grpTown]

/-- `BG\s+(town)`. -/
def reLocCourt5 : RE := seqRE [litRE "BG", wsP, grpTown]

/-- The ordered `court_patterns` list. -/
def court_patterns : List RE :=
  [reLocCourt1, reLocCourt2, reLocCourt3, reLocCourt4, reLocCourt5]

/-- `(?:Tatort|in|bei|zu|aus)\s+([A-ZÄÖÜ][a-zäöüß]+(?:[\s-][a-z]+[\s-][A-ZÄÖÜ][a-zäöüß]+)?)`. -/
def reLocInd1 : RE :=
  seqRE [altN [litRE "Tatort", litRE "in", litRE "bei", litRE "zu", litRE "aus"], wsP,
    RE.grp (seqRE [RE.cls isUpperDE, plusRE (RE.cls isLowerDE),
      RE.opt (seqRE [RE.cls isWsDash, plusRE (RE.cls isAZlow), RE.cls isWsDash,
        RE.cls isUpperDE, plusRE (RE.cls isLowerDE)])])]

/-- `(?:wohnhaft\s+in|aus)\s+([A-ZÄÖÜ][a-zäöüß]+)`. -/
def reLocInd2 : RE :=
  seqRE [RE.alt (seqRE [litRE "wohnhaft", wsP, litRE "in"]) (litRE "aus"), wsP, grpTown]

/-- `([A-ZÄÖÜ][a-zäöüß]+)[\s-]?(?:Graben|Bach|Tal|Berg|Alm)\b`. -/
def reLocInd3 : RE :=
  seqRE [grpTown, RE.opt (RE.cls isWsDash),
    altN [litRE "Graben", litRE "Bach", litRE "Tal", litRE "Berg", litRE "Alm"], RE.bnd]

/-- The ordered `location_indicators` list. -/
def location_indicators : List RE := [reLocInd1, reLocInd2, reLocInd3]

/-- `\b[A-ZÄÖÜ][a-zäöüß]+(?:[\s-][a-z]+[\s-][A-ZÄÖÜ][a-zäöüß]+)?\b`, the
capitalized-word scan of the gazetteer pass (no group in the source, so the
whole match is the capture). -/
def reWords : RE :=
  RE.grp (seqRE [RE.bnd, RE.cls isUpperDE, plusRE (RE.cls isLowerDE),
    RE.opt (seqRE [RE.cls isWsDash, plusRE (RE.cls isAZlow), RE.cls isWsDash,
      RE.cls isUpperDE, plusRE (RE.cls isLowerDE)]), RE.bnd])

/-- The stop-word list of the court pass. -/
def courtStopWords : List (List Char) :=
  ["der".data, "des".data, "zu".data, "für".data, "in".data]

/-- The multiset of strings added to the `locations` set, in program order:
court captures (stripped, stop words rejected), indicator captures
(stripped, length above 2) and gazetteer words. -/
def locationCandidates (text description : String) : List (List Char) :=
  let ct := combinedText text description
  (court_patterns.flatMap fun p =>
    (findall p ct).filterMap fun cap =>
      let location := stripC cap
      if toLowerL location ∈ courtStopWords then none else some location)
  ++ (location_indicators.flatMap fun p =>
    (findall p ct).filterMap fun cap =>
      let location := stripC cap
      if 2 < location.length then some location else none)
  ++ ((findall reWords ct).filterMap fun word =>
    if String.mk (toLowerL word) ∈ austrian_locations then some word else none)

/-- `extract_locations_advanced(text, description)`. -/
def extract_locations_advanced (text description : String) : List String :=
  if text = "" ∧ description = "" then []
  else (sortedSet (locationCandidates text description)).map String.mk

/-! ### Person extraction (`extract_persons_advanced`)

All name patterns and the secondary attribute searches are compiled with
`re.IGNORECASE` (the attribute searches also with `re.DOTALL`). -/

/-- The capture `([A-ZÄÖÜ][a-zäöüß]+\s+[A-ZÄÖÜ]\.?)` under IGNORECASE. -/
def grpNameCI : RE :=
  RE.grp (seqRE [RE.cls isUpperDECI, plusRE (RE.cls isLowerDECI), wsP,
    RE.cls isUpperDECI, RE.opt (chrRE '.')])

/-- `(?:Name\s+des?\s+)?Täters?:\s*(?:\d+\.\s*)?(long name capture)`. -/
def rePers1 : RE :=
  seqRE [RE.opt (seqRE [litCI "Name", wsP, litCI "de", RE.opt (chrCI 's'), wsP]),
    litCI "Täter", RE.opt (chrCI 's'), chrRE ':', wsS,
    RE.opt (seqRE [plusRE (RE.cls isDigitC), chrRE '.', wsS]),
    RE.grp (seqRE [RE.cls isUpperDECI, plusRE (RE.cls isLowerDECI), wsP,
      RE.cls isUpperDECI, RE.opt (chrRE '.'),
      RE.opt (seqRE [wsP, plusRE (RE.cls isAZCI), wsP,
        RE.cls isUpperDECI, plusRE (RE.cls isLowerDECI), wsP,
        RE.cls isUpperDECI, RE.opt (chrRE '.')])])]

/-- `(?:Angeklagter?|Beschuldigter?|Verdächtiger?):\s*(name capture)`. -/
def rePers2 : RE :=
  seqRE [altN [RE.cat (litCI "Angeklagte") (RE.opt (chrCI 'r')),
    RE.cat (litCI "Beschuldigte") (RE.opt (chrCI 'r')),
    RE.cat (litCI "Verdächtige") (RE.opt (chrCI 'r'))], chrRE ':', wsS, grpNameCI]

/-- `(?:gegen|wider)\s+(name capture)`. -/
def rePers3 : RE :=
  seqRE [RE.alt (litCI "gegen") (litCI "wider"), wsP, grpNameCI]

/-- `(?:\d+\.\s*)?(name capture)\s*(?:Alter:|geb\.|Beruf:)`. -/
def rePers4 : RE :=
  seqRE [RE.opt (seqRE [plusRE (RE.cls isDigitC), chrRE '.', wsS]), grpNameCI, wsS,
    altN [litCI "Alter:", RE.cat (litCI "geb") (chrRE '.'), litCI "Beruf:"]]

/-- `([A-ZÄÖÜ][a-zäöüß]+\s+[A-ZÄÖÜ][a-zäöüß]+)\s*,?\s*(?:\d+\s*Jahre?|geb\.)`. -/
def rePers5 : RE :=
  seqRE [RE.grp (seqRE [RE.cls isUpperDECI, plusRE (RE.cls isLowerDECI), wsP,
      RE.cls isUpperDECI, plusRE (RE.cls isLowerDECI)]),
    wsS, RE.opt (chrRE ','), wsS,
    RE.alt (seqRE [plusRE (RE.cls isDigitC), wsS, litCI "Jahr", RE.opt (chrCI 'e')])
      (RE.cat (litCI "geb") (chrRE '.'))]

/-- The ordered `name_patterns` list. -/
def name_patterns : List RE := [rePers1, rePers2, rePers3, rePers4, rePers5]

/-- All raw name captures, in nested-loop order (pattern major, position minor). -/
def personNameStream (t : List Char) : List (List Char) :=
  name_patterns.flatMap fun p => findall p t

/-- `{name}.*?(?:Alter:|,)\s*(\d+)\s*(?:J(?:ahre?)?)?` (first age pattern). -/
def reAge1 (name : List Char) : RE :=
  seqRE [litCIL name, RE.starL anyC, RE.alt (litCI "Alter:") (chrRE ','), wsS,
    RE.grp (plusRE (RE.cls isDigitC)), wsS,
    RE.opt (RE.cat (chrCI 'J') (RE.opt (RE.cat (litCI "ahr") (RE.opt (chrCI 'e')))))]

/-- `{name}.*?(\d+)\s*Jahre?\s*alt` (second age pattern). -/
def reAge2 (name : List Char) : RE :=
  seqRE [litCIL name, RE.starL anyC, RE.grp (plusRE (RE.cls isDigitC)), wsS,
    litCI "Jahr", RE.opt (chrCI 'e'), wsS, litCI "alt"]

/-- `{name}.*?Beruf:\s*([A-Za-zäöüß]+(?:\s+[A-Za-zäöüß]+)?)`. -/
def reProf (name : List Char) : RE :=
  seqRE [litCIL name, RE.starL anyC, litCI "Beruf:", wsS,
    RE.grp (RE.cat (plusRE (RE.cls isProfC))
      (RE.opt (RE.cat wsP (plusRE (RE.cls isProfC)))))]

/-- `{name}.*?geb\.?\s*(?:\d{1,2}[sep]\d{1,2}[sep])?(\d{4})`. -/
def reBirthOf (name : List Char) : RE :=
  seqRE [litCIL name, RE.starL anyC, litCI "geb", RE.opt (chrRE '.'), wsS,
    RE.opt (seqRE [d12, RE.cls isSepC, d12, RE.cls isSepC]), RE.grp d4]

/-- Build the person record for an accepted clean name: the secondary,
name-anchored searches for age, profession and birth year. -/
def buildPerson (t : List Char) (clean_name : List Char) : Person :=
  let age : Option Nat :=
    match research (reAge1 clean_name) t with
    | some cap => some (parseNat (cap.getD []))
    | none =>
      match research (reAge2 clean_name) t with
      | some cap => some (parseNat (cap.getD []))
      | none => none
  let profession : Option String :=
    match research (reProf clean_name) t with
    | some cap =>
      let p := stripC (cap.getD [])
      if p ≠ [] ∧ 2 < p.length then some (String.mk p) else none
    | none => none
  let birth_year : Option Nat :=
    match research (reBirthOf clean_name) t with
    | some cap =>
      let y := parseNat (cap.getD [])
      if 1800 ≤ y ∧ y ≤ 1950 then some y else none
    | none => none
  { name := String.mk clean_name, age := age, profession := profession,
    birth_year := birth_year }

/-- The accumulation loop over the captured names: strip, require a
nonempty unseen name longer than three characters, then build the record. -/
def personsLoop (t : List Char) (seen : List (List Char)) :
    List (List Char) → List Person
  | [] => []
  | n :: ns =>
    let clean_name := stripC n
    if clean_name ≠ [] ∧ clean_name ∉ seen ∧ 3 < clean_name.length then
      buildPerson t clean_name :: personsLoop t (clean_name :: seen) ns
    else personsLoop t seen ns

/-- `extract_persons_advanced(text)`. -/
def extract_persons_advanced (text : String) : List Person :=
  if text = "" then []
  else personsLoop text.data [] (personNameStream text.data)

/-! ### Object classification (`classify_object_advanced`) -/

/-- The `weapon_keywords` table in its source order. -/
def weapon_keywords : List (String × String) :=
  [("pistole", "Waffe.Feuerwaffe.Pistole"), ("revolver", "Waffe.Feuerwaffe.Revolver"),
   ("gewehr", "Waffe.Feuerwaffe.Gewehr"), ("stutzen", "Waffe.Feuerwaffe.Gewehr"),
   ("kugelstutzen", "Waffe.Feuerwaffe.Gewehr"),
   ("flobert", "Waffe.Feuerwaffe.Kleinkaliberwaffe"),
   ("flobertpistole", "Waffe.Feuerwaffe.Kleinkaliberwaffe"),
   ("schreckpistole", "Waffe.Feuerwaffe.Schreckschusswaffe"),
   ("repetierpistole", "Waffe.Feuerwaffe.Pistole"),
   ("messer", "Waffe.Stichwaffe.Messer"), ("dolch", "Waffe.Stichwaffe.Dolch"),
   ("schalldämpfer", "Waffe.Zubehör.Schalldämpfer"),
   ("säbel", "Waffe.Hiebwaffe.Säbel"), ("bajonett", "Waffe.Stichwaffe.Bajonett"),
   ("munition", "Waffe.Zubehör.Munition"), ("patrone", "Waffe.Zubehör.Munition"),
   ("kugel", "Waffe.Zubehör.Munition")]

/-- The `document_types` table in its source order. -/
def document_types : List (String × String) :=
  [("foto", "Dokument.Fotografie"), ("photo", "Dokument.Fotografie"),
   ("brief", "Dokument.Brief"), ("schreiben", "Dokument.Brief"),
   ("urkunde", "Dokument.Urkunde"), ("protokoll", "Dokument.Protokoll"),
   ("akte", "Dokument.Akte"), ("zeugnis", "Dokument.Zeugnis"),
   ("ausweis", "Dokument.Ausweis"), ("pass", "Dokument.Pass")]

/-- The `tool_types` table in its source order. -/
def tool_types : List (String × String) :=
  [("schlüssel", "Werkzeug.Schlüssel"), ("dietrich", "Werkzeug.Einbruchwerkzeug"),
   ("brecheisen", "Werkzeug.Einbruchwerkzeug"), ("feile", "Werkzeug.Feile"),
   ("säge", "Werkzeug.Säge"), ("hammer", "Werkzeug.Hammer"),
   ("zange", "Werkzeug.Zange"), ("bohrer", "Werkzeug.Bohrer")]

/-- `(?:cal\.?|kaliber)\s*([\d,.-]+)`, searched in the lowercased text. -/
def reCal : RE :=
  seqRE [RE.alt (RE.cat (litRE "cal") (RE.opt (chrRE '.'))) (litRE "kaliber"), wsS,
    RE.grp (plusRE (RE.cls isCalC))]

/-- First table entry whose keyword occurs as a substring. -/
def firstKeywordHit (table : List (String × String)) (t : List Char) : Option String :=
  match table with
  | [] => none
  | kv :: rest => if containsSub t kv.1.data then some kv.2 else firstKeywordHit rest t

/-- `classify_object_advanced(item)`. -/
def classify_object_advanced (item : Item) : String :=
  if item.container = "karteikarten" then "Dokument.Karteikarte"
  else
    let ct := toLowerL (item.title.data ++ ' ' :: item.description.data ++
      ' ' :: item.fulltext.data)
    match firstKeywordHit weapon_keywords ct with
    | some classification =>
      if containsSub ct "cal.".data || containsSub ct "kaliber".data then
        match research reCal ct with
        | some cap =>
          String.mk (classification.data ++ ".Cal".data ++
            ((cap.getD []).map fun c => if c == ',' then '.' else c))
        | none => classification
      else classification
    | none =>
      match firstKeywordHit document_types ct with
      | some doc => doc
      | none =>
        match firstKeywordHit tool_types ct with
        | some tool => tool
        | none =>
          if containsSub ct "kleidung".data || containsSub ct "textil".data then
            "Textilie.Kleidungsstück"
          else if containsSub ct "schmuck".data || containsSub ct "ring".data ||
              containsSub ct "kette".data then "Schmuck.Objekt"
          else if containsSub ct "münze".data || containsSub ct "geld".data then
            "Geld.Münze"
          else if item.container = "objekte" then "Beweisstück.Objekt"
          else "Beweisstück.Unklassifiziert"

/-! ### Item enrichment (`enhance_item`, version 2) -/

/-- The enriched record: the copied input fields plus the extracted fields;
a key absent from the Python dict is `none`.  `extractedAt` holds the value
of `datetime.now().isoformat()`, which the embedding takes as a parameter. -/
structure Enhanced where
  title : String
  description : String
  fulltext : String
  container : String
  identifier : String
  historicalYear : Option Nat
  dateSource : Option String
  crimeType : Option (List String)
  locations : Option (List String)
  persons : Option (List Person)
  objectClass : String
  extractionQuality : Rat
  extractedAt : String
deriving DecidableEq

/-- Python `round(q, 2)` on the nonnegative, exactly representable quality
values (every value that occurs is a multiple of 1/20, so rounding to two
decimals never hits a tie and agrees with this half-up rounding). -/
def pyRound2 (q : Rat) : Rat := (⌊q * 100 + 1 / 2⌋ : Rat) / 100

/-- The quality sum of `enhance_item` as a function of which signals were
detected: year (exact or estimated), crimes, locations, persons, and a
successful classification. -/
def qualityScore (hasYear estYear hasCrime hasLoc hasPers classified : Bool) : Rat :=
  (if hasYear then (if !estYear then 3 / 10 else 15 / 100) else 0)
  + (if hasCrime then 25 / 100 else 0)
  + (if hasLoc then 2 / 10 else 0)
  + (if hasPers then 15 / 100 else 0)
  + (if classified then 1 / 10 else 0)

/-- `enhance_item(item)`; `now` is the value `datetime.now().isoformat()`
produced during the call. -/
def enhance_item (item : Item) (now : String) : Enhanced :=
  let ys := extract_historical_year_advanced item.fulltext item.description item.identifier
  let year := ys.1
  let source := ys.2
  let crimes := extract_crime_types_advanced item.fulltext item.description
  let locations := extract_locations_advanced item.fulltext item.description
  let persons := if item.fulltext ≠ "" then extract_persons_advanced item.fulltext else []
  let classification := classify_object_advanced item
  let dateSource : Option String := if year.isSome then some source else none
  let classified := !(endsWithAny classification.data
    ["Unklassifiziert".data, "Sonstiges".data])
  { title := item.title, description := item.description, fulltext := item.fulltext,
    container := item.container, identifier := item.identifier,
    historicalYear := year,
    dateSource := dateSource,
    crimeType := if crimes ≠ [] then some crimes else none,
    locations := if locations ≠ [] then some locations else none,
    persons := if item.fulltext ≠ "" ∧ persons ≠ [] then some persons else none,
    objectClass := classification,
    extractionQuality := pyRound2 (min (qualityScore year.isSome
      (dateSource == some "estimated") (crimes ≠ []) (locations ≠ [])
      (item.fulltext ≠ "" ∧ persons ≠ []) classified) 1),
    extractedAt := now }

/-- The extracted fields of an enriched record, i.e. everything except the
`extractedAt` timestamp. -/
def enhancedCore (e : Enhanced) :
    (String × String × String × String × String) × Option Nat × Option String ×
    Option (List String) × Option (List String) × Option (List Person) × String × Rat :=
  ((e.title, e.description, e.fulltext, e.container, e.identifier),
   e.historicalYear, e.dateSource, e.crimeType, e.locations, e.persons,
   e.objectClass, e.extractionQuality)

/-! ### The orchestrator (`process_archive`, version 2) -/

/-- The sort key `(x.get('dateSource') == 'estimated', x.get('historicalYear', 9999))`,
with the boolean encoded as 0/1 so that Python tuple comparison is `pairLe`. -/
def archiveSortKey (e : Enhanced) : Nat × Nat :=
  ((if e.dateSource == some "estimated" then 1 else 0), e.historicalYear.getD 9999)

/-- The comparison `enhanced_data.sort(key=sort_key)` uses. -/
def enhancedLe (a b : Enhanced) : Bool := pairLe (archiveSortKey a) (archiveSortKey b)

/-- Enrich every record and resort the batch, as `process_archive` does
before saving. -/
def processArchiveRecords (items : List Item) (now : String) : List Enhanced :=
  sortStable enhancedLe (items.map fun item => enhance_item item now)

/-- The per-batch counters of `self.statistics` after processing `items`
(the increments happen inside `enhance_item`). -/
structure Counters where
  total : Nat
  with_date : Nat
  with_estimated_date : Nat
  classified : Nat
  with_crimes : Nat
  with_locations : Nat
  without_fulltext : Nat
deriving DecidableEq

/-- The counters accumulated over a batch. -/
def countersOf (items : List Item) : Counters :=
  let es := items.map fun item => enhance_item item ""
  { total := items.length
  , with_date := es.countP fun e =>
      e.historicalYear.isSome && !(e.dateSource == some "estimated")
  , with_estimated_date := es.countP fun e =>
      e.historicalYear.isSome && (e.dateSource == some "estimated")
  , classified := es.countP fun e =>
      !(endsWithAny e.objectClass.data ["Unklassifiziert".data, "Sonstiges".data])
  , with_crimes := es.countP fun e => e.crimeType.isSome
  , with_locations := es.countP fun e => e.locations.isSome
  , without_fulltext := items.countP fun item => item.fulltext == "" }

/-- The coverage ratios computed at the end of `process_archive`. -/
structure Coverage where
  date : Rat
  date_exact : Rat
  date_estimated : Rat
  classified : Rat
  crimes : Rat
  locations : Rat
  without_fulltext : Rat
deriving DecidableEq

/-- Python `round(q, 3)` on the nonnegative coverage values. -/
def pyRound3 (q : Rat) : Rat := (⌊q * 1000 + 1 / 2⌋ : Rat) / 1000

/-- Python division, which raises `ZeroDivisionError` on a zero denominator. -/
def pyDiv (a b : Rat) : Except String Rat :=
  if b = 0 then Except.error "ZeroDivisionError" else Except.ok (a / b)

/-- The `self.statistics['coverage']` computation of `process_archive`:
every ratio divides by `self.statistics['total']` with no guard. -/
def computeCoverage (st : Counters) : Except String Coverage := do
  let t : Rat := st.total
  let date ← pyDiv ((st.with_date : Rat) + (st.with_estimated_date : Rat)) t
  let date_exact ← pyDiv (st.with_date : Rat) t
  let date_estimated ← pyDiv (st.with_estimated_date : Rat) t
  let classified ← pyDiv (st.classified : Rat) t
  let crimes ← pyDiv (st.with_crimes : Rat) t
  let locations ← pyDiv (st.with_locations : Rat) t
  let without_fulltext ← pyDiv (st.without_fulltext : Rat) t
  pure { date := pyRound3 date, date_exact := pyRound3 date_exact,
         date_estimated := pyRound3 date_estimated, classified := pyRound3 classified,
         crimes := pyRound3 crimes, locations := pyRound3 locations,
         without_fulltext := pyRound3 without_fulltext }

/-! ### Engine predicates used by the invariant proofs -/

/-- Whether the expression contains a capture group. -/
def hasGrp : RE → Bool
  | .grp _ => true
  | .cat a b => hasGrp a || hasGrp b
  | .alt a b => hasGrp a || hasGrp b
  | .opt a => hasGrp a
  | .star a => hasGrp a
  | .starL a => hasGrp a
  | _ => false

/-- A sufficient syntactic condition for every match of the expression to
consume at least one character. -/
def mustConsume : RE → Bool
  | .cls _ => true
  | .cat a b => mustConsume a || mustConsume b
  | .alt a b => mustConsume a && mustConsume b
  | .grp a => mustConsume a
  | _ => false

/-- A sufficient syntactic condition for every match to set the capture. -/
def setsCap : RE → Bool
  | .grp _ => true
  | .cat a b => (setsCap a && !hasGrp b) || setsCap b
  | .alt a b => setsCap a && setsCap b
  | _ => false

/-- Every match of the expression starts with a character satisfying `p`. -/
inductive StartsWith (p : Char → Bool) : RE → Prop
  | cls (q : Char → Bool) (h : ∀ c, q c = true → p c = true) : StartsWith p (.cls q)
  | cat_left {a : RE} (b : RE) (ha : StartsWith p a) : StartsWith p (.cat a b)
  | alt {a b : RE} (ha : StartsWith p a) (hb : StartsWith p b) : StartsWith p (.alt a b)
  | grp {a : RE} (ha : StartsWith p a) : StartsWith p (.grp a)

/-- A capture value is `good` for `p` when, if present, it is nonempty and
starts with a character satisfying `p`. -/
def GoodCap (p : Char → Bool) (cap : Option (List Char)) : Prop :=
  ∀ l, cap = some l → ∃ c t, l = c :: t ∧ p c = true

/-- Every capture group of the expression produces a `GoodCap` capture:
its body consumes input and starts with a character satisfying `p`. -/
inductive CapsGood (p : Char → Bool) : RE → Prop
  | base {re : RE} (h : hasGrp re = false) : CapsGood p re
  | grp {a : RE} (hs : StartsWith p a) (hc : mustConsume a = true) : CapsGood p (.grp a)
  | cat {a b : RE} (ha : CapsGood p a) (hb : CapsGood p b) : CapsGood p (.cat a b)
  | alt {a b : RE} (ha : CapsGood p a) (hb : CapsGood p b) : CapsGood p (.alt a b)
  | opt {a : RE} (ha : CapsGood p a) : CapsGood p (.opt a)
  | star {a : RE} (ha : CapsGood p a) : CapsGood p (.star a)
  | starL {a : RE} (ha : CapsGood p a) : CapsGood p (.starL a)

/-! ### Person-stream decomposition used by the C10 theorems -/

/-- The stripped captures that pass the length test, before deduplication. -/
def validNameStream (t : List Char) : List (List Char) :=
  (personNameStream t).filterMap fun n =>
    let c := stripC n
    if c ≠ [] ∧ 3 < c.length then some c else none

/-- First-occurrence deduplication with an explicit seen set. -/
def dedupFrom (seen : List (List Char)) : List (List Char) → List (List Char)
  | [] => []
  | x :: xs => if x ∈ seen then dedupFrom seen xs else x :: dedupFrom (x :: seen) xs

/-! ### Year extraction, version 1 (`extract_historical_year`) -/

/-- The ordered pattern list of the version-1 extractor (all `re.IGNORECASE`). -/
def patternsV1 : List RE := [reBirth1, reBirth2, reSimpleYear, reCourt1, reDate1]

/-- `extract_historical_year(text)` of `enhance_metadata.py`: all captures in
the valid range, earliest one returned. -/
def extract_historical_year (text : String) : Option Nat :=
  if text = "" then none
  else
    match patternsV1.flatMap (fun p =>
      (findall p text.data).filterMap fun cap =>
        if 1850 ≤ parseNat cap ∧ parseNat cap ≤ 1950 then some (parseNat cap) else none) with
    | [] => none
    | y :: ys => some (natMinFold y ys)

/-! ## Lemmas

### The stable sort -/

theorem insStable_perm (le : α → α → Bool) (x : α) (l : List α) :
    (insStable le x l).Perm (x :: l) := by
  induction l with
  | nil => exact List.Perm.refl _
  | cons y ys ih =>
    simp only [insStable]
    split
    · exact ((ih.cons y).trans (List.Perm.swap x y ys))
    · exact List.Perm.refl _

theorem sortStable_perm (le : α → α → Bool) (l : List α) :
    (sortStable le l).Perm l := by
  suffices h : ∀ (l acc : List α),
      (l.foldl (fun acc x => insStable le x acc) acc).Perm (l ++ acc) by
    simpa using h l []
  intro l
  induction l with
  | nil => intro acc; simp
  | cons x xs ih =>
    intro acc
    simp only [List.foldl_cons, List.cons_append]
    exact ((ih (insStable le x acc)).trans
      (List.Perm.append_left xs (insStable_perm le x acc))).trans
      List.perm_middle

theorem mem_insStable (le : α → α → Bool) (x a : α) (l : List α) :
    a ∈ insStable le x l ↔ a = x ∨ a ∈ l :=
  ((insStable_perm le x l).mem_iff).trans (by simp)

theorem insStable_sorted (le : α → α → Bool)
    (htot : ∀ a b, le a b = true ∨ le b a = true)
    (htr : ∀ a b c, le a b = true → le b c = true → le a c = true)
    (x : α) (l : List α) (hl : l.Pairwise (fun a b => le a b = true)) :
    (insStable le x l).Pairwise (fun a b => le a b = true) := by
  induction l with
  | nil => simp [insStable]
  | cons y ys ih =>
    rcases hl with _ | ⟨hy, hys⟩
    simp only [insStable]
    split
    · next hyx =>
      refine List.Pairwise.cons ?_ (ih hys)
      intro b hb
      rcases (mem_insStable le x b ys).1 hb with rfl | hb
      · exact hyx
      · exact hy _ hb
    · next hyx =>
      have hxy : le x y = true := by
        rcases htot x y with h | h
        · exact h
        · exact absurd h hyx
      refine List.Pairwise.cons ?_ (List.Pairwise.cons hy hys)
      intro b hb
      rcases List.mem_cons.1 hb with rfl | hb
      · exact hxy
      · exact htr _ _ _ hxy (hy _ hb)

theorem sortStable_sorted (le : α → α → Bool)
    (htot : ∀ a b, le a b = true ∨ le b a = true)
    (htr : ∀ a b c, le a b = true → le b c = true → le a c = true)
    (l : List α) :
    (sortStable le l).Pairwise (fun a b => le a b = true) := by
  suffices h : ∀ (l acc : List α), acc.Pairwise (fun a b => le a b = true) →
      (l.foldl (fun acc x => insStable le x acc) acc).Pairwise
        (fun a b => le a b = true) by
    exact h l [] (List.Pairwise.nil)
  intro l
  induction l with
  | nil => intro acc h; simpa using h
  | cons x xs ih =>
    intro acc h
    exact ih _ (insStable_sorted le htot htr x acc h)

theorem sortStable_head_min (le : α → α → Bool)
    (htot : ∀ a b, le a b = true ∨ le b a = true)
    (htr : ∀ a b c, le a b = true → le b c = true → le a c = true)
    (l : List α) (c : α) (rest : List α) (h : sortStable le l = c :: rest) :
    c ∈ l ∧ ∀ p ∈ l, le c p = true := by
  have hperm := sortStable_perm le l
  rw [h] at hperm
  constructor
  · exact hperm.mem_iff.1 (List.mem_cons_self c rest)
  · intro p hp
    have hp' : p ∈ c :: rest := hperm.mem_iff.2 hp
    rcases List.mem_cons.1 hp' with rfl | hp''
    · rcases htot p p with hc | hc <;> exact hc
    · have hs := sortStable_sorted le htot htr l
      rw [h] at hs
      exact (List.pairwise_cons.1 hs).1 p hp''

/-! ### The pair key order -/

theorem pairLe_total (a b : Nat × Nat) : pairLe a b = true ∨ pairLe b a = true := by
  simp only [pairLe, Bool.or_eq_true, Bool.and_eq_true, decide_eq_true_eq]
  omega

theorem pairLe_trans (a b c : Nat × Nat) (h1 : pairLe a b = true)
    (h2 : pairLe b c = true) : pairLe a c = true := by
  simp only [pairLe, Bool.or_eq_true, Bool.and_eq_true, decide_eq_true_eq] at *
  omega

theorem candLe_total (a b : Nat × String) : candLe a b = true ∨ candLe b a = true :=
  pairLe_total _ _

theorem candLe_trans (a b c : Nat × String) (h1 : candLe a b = true)
    (h2 : candLe b c = true) : candLe a c = true :=
  pairLe_trans _ _ _ h1 h2

theorem enhancedLe_total (a b : Enhanced) :
    enhancedLe a b = true ∨ enhancedLe b a = true := pairLe_total _ _

theorem enhancedLe_trans (a b c : Enhanced) (h1 : enhancedLe a b = true)
    (h2 : enhancedLe b c = true) : enhancedLe a c = true :=
  pairLe_trans _ _ _ h1 h2

/-! ### The lexicographic string order and `sortedSet` -/

theorem lexLt_trans : ∀ a b c : List Char, lexLt a b = true → lexLt b c = true →
    lexLt a c = true
  | [], [], _, h1, _ => by simp [lexLt] at h1
  | [], _ :: _, [], _, h2 => by simp [lexLt] at h2
  | [], _ :: _, _ :: _, _, _ => by simp [lexLt]
  | _ :: _, [], _, h1, _ => by simp [lexLt] at h1
  | _ :: _, _ :: _, [], _, h2 => by simp [lexLt] at h2
  | a :: as, b :: bs, c :: cs, h1, h2 => by
    simp only [lexLt] at *
    split at h1
    · split at h2
      · simp only [if_pos (by omega : a.toNat < c.toNat)]
      · split at h2
        · exact absurd h2 (by simp)
        · simp only [if_pos (by omega : a.toNat < c.toNat)]
    · split at h1
      · exact absurd h1 (by simp)
      · split at h2
        · simp only [if_pos (by omega : a.toNat < c.toNat)]
        · split at h2
          · exact absurd h2 (by simp)
          · have : ¬ a.toNat < c.toNat := by omega
            simp only [if_neg this, if_neg (by omega : ¬ c.toNat < a.toNat)]
            exact lexLt_trans as bs cs h1 h2

theorem lexLt_conn : ∀ a b : List Char, lexLt a b = false → lexLt b a = false → a = b
  | [], [], _, _ => rfl
  | [], _ :: _, h1, _ => by simp [lexLt] at h1
  | _ :: _, [], _, h2 => by simp [lexLt] at h2
  | a :: as, b :: bs, h1, h2 => by
    simp only [lexLt] at h1 h2
    split at h1
    · exact absurd h1 (by simp)
    · next hab =>
      split at h1
      · next hba =>
        simp only [if_pos hba] at h2
        exact absurd h2 (by simp)
      · next hba =>
        have htn : a.toNat = b.toNat := by omega
        have heq : a = b := Char.eq_of_val_eq (UInt32.toNat.inj htn)
        subst heq
        simp only [if_neg hba, if_neg hab] at h2
        rw [lexLt_conn as bs h1 h2]

theorem mem_insortD (x a : List Char) (l : List (List Char)) :
    a ∈ insortD x l ↔ a = x ∨ a ∈ l := by
  induction l with
  | nil => simp [insortD]
  | cons y ys ih =>
    simp only [insortD]
    split
    · simp only [List.mem_cons, ih]
      tauto
    · next h1 =>
      split
      · simp [List.mem_cons]
      · next h2 =>
        have hyx : y = x :=
          lexLt_conn y x (Bool.not_eq_true _ ▸ h1) (Bool.not_eq_true _ ▸ h2)
        subst hyx
        simp only [List.mem_cons]
        tauto

theorem insortD_sorted (x : List Char) (l : List (List Char))
    (hl : l.Pairwise (fun a b => lexLt a b = true)) :
    (insortD x l).Pairwise (fun a b => lexLt a b = true) := by
  induction l with
  | nil => simp [insortD]
  | cons y ys ih =>
    rcases hl with _ | ⟨hy, hys⟩
    simp only [insortD]
    split
    · next hyx =>
      refine List.Pairwise.cons ?_ (ih hys)
      intro b hb
      rcases (mem_insortD x b ys).1 hb with rfl | hb
      · exact hyx
      · exact hy _ hb
    · split
      · next hxy =>
        refine List.Pairwise.cons ?_ (List.Pairwise.cons hy hys)
        intro b hb
        rcases List.mem_cons.1 hb with rfl | hb
        · exact hxy
        · exact lexLt_trans _ _ _ hxy (hy _ hb)
      · exact List.Pairwise.cons hy hys

/-! ### Engine invariants -/

theorem starG_length
    (m : Option Char → List Char → Option (List Char) → List MOut)
    (hm : ∀ prev s cap, ∀ o ∈ m prev s cap, o.2.1.length ≤ s.length) :
    ∀ (f : Nat) (prev : Option Char) (s : List Char) (cap : Option (List Char)),
      ∀ o ∈ starG m f prev s cap, o.2.1.length ≤ s.length := by
  intro f
  induction f with
  | zero =>
    intro prev s cap o ho
    rcases List.mem_singleton.1 ho with rfl
    exact Nat.le_refl _
  | succ f ih =>
    intro prev s cap o ho
    rcases List.mem_append.1 ho with ho | ho
    · rcases List.mem_flatMap.1 ho with ⟨o1, ho1, ho2⟩
      exact Nat.le_trans (ih o1.1 o1.2.1 o1.2.2 o ho2) (hm prev s cap o1 ho1)
    · rcases List.mem_singleton.1 ho with rfl
      exact Nat.le_refl _

theorem starLG_length
    (m : Option Char → List Char → Option (List Char) → List MOut)
    (hm : ∀ prev s cap, ∀ o ∈ m prev s cap, o.2.1.length ≤ s.length) :
    ∀ (f : Nat) (prev : Option Char) (s : List Char) (cap : Option (List Char)),
      ∀ o ∈ starLG m f prev s cap, o.2.1.length ≤ s.length := by
  intro f
  induction f with
  | zero =>
    intro prev s cap o ho
    rcases List.mem_singleton.1 ho with rfl
    exact Nat.le_refl _
  | succ f ih =>
    intro prev s cap o ho
    rcases List.mem_cons.1 ho with rfl | ho
    · exact Nat.le_refl _
    · rcases List.mem_flatMap.1 ho with ⟨o1, ho1, ho2⟩
      exact Nat.le_trans (ih o1.1 o1.2.1 o1.2.2 o ho2) (hm prev s cap o1 ho1)

theorem matchL_length (re : RE) :
    ∀ (fuel : Nat) (prev : Option Char) (s : List Char) (cap : Option (List Char)),
      ∀ o ∈ matchL re fuel prev s cap, o.2.1.length ≤ s.length := by
  induction re with
  | eps =>
    intro fuel prev s cap o ho
    rcases List.mem_singleton.1 ho with rfl
    exact Nat.le_refl _
  | cls p =>
    intro fuel prev s cap o ho
    match s, ho with
    | c :: s', ho =>
      simp only [matchL] at ho
      split at ho
      · rcases List.mem_singleton.1 ho with rfl
        exact Nat.le_succ _
      · exact absurd ho (List.not_mem_nil o)
  | cat a b iha ihb =>
    intro fuel prev s cap o ho
    rcases List.mem_flatMap.1 ho with ⟨o1, ho1, ho2⟩
    exact Nat.le_trans (ihb fuel o1.1 o1.2.1 o1.2.2 o ho2) (iha fuel prev s cap o1 ho1)
  | alt a b iha ihb =>
    intro fuel prev s cap o ho
    rcases List.mem_append.1 ho with ho | ho
    · exact iha fuel prev s cap o ho
    · exact ihb fuel prev s cap o ho
  | opt a iha =>
    intro fuel prev s cap o ho
    rcases List.mem_append.1 ho with ho | ho
    · exact iha fuel prev s cap o ho
    · rcases List.mem_singleton.1 ho with rfl
      exact Nat.le_refl _
  | star a iha =>
    intro fuel prev s cap o ho
    exact starG_length (matchL a fuel) (iha fuel) fuel prev s cap o ho
  | starL a iha =>
    intro fuel prev s cap o ho
    exact starLG_length (matchL a fuel) (iha fuel) fuel prev s cap o ho
  | grp a iha =>
    intro fuel prev s cap o ho
    rcases List.mem_map.1 ho with ⟨o1, ho1, rfl⟩
    exact iha fuel prev s cap o1 ho1
  | bnd =>
    intro fuel prev s cap o ho
    simp only [matchL] at ho
    split at ho
    · rcases List.mem_singleton.1 ho with rfl
      exact Nat.le_refl _
    · exact absurd ho (List.not_mem_nil o)
  | eos =>
    intro fuel prev s cap o ho
    match s, ho with
    | [], ho =>
      rcases List.mem_singleton.1 ho with rfl
      exact Nat.le_refl _

theorem matchL_mustConsume (re : RE) (hmc : mustConsume re = true) :
    ∀ (fuel : Nat) (prev : Option Char) (s : List Char) (cap : Option (List Char)),
      ∀ o ∈ matchL re fuel prev s cap, o.2.1.length < s.length := by
  induction re with
  | eps => exact absurd hmc (by simp [mustConsume])
  | cls p =>
    intro fuel prev s cap o ho
    match s, ho with
    | c :: s', ho =>
      simp only [matchL] at ho
      split at ho
      · rcases List.mem_singleton.1 ho with rfl
        exact Nat.lt_succ_self _
      · exact absurd ho (List.not_mem_nil o)
  | cat a b iha ihb =>
    intro fuel prev s cap o ho
    rcases List.mem_flatMap.1 ho with ⟨o1, ho1, ho2⟩
    rw [mustConsume, Bool.or_eq_true] at hmc
    rcases hmc with ha | hb
    · exact Nat.lt_of_le_of_lt (matchL_length b fuel o1.1 o1.2.1 o1.2.2 o ho2)
        (iha ha fuel prev s cap o1 ho1)
    · exact Nat.lt_of_lt_of_le (ihb hb fuel o1.1 o1.2.1 o1.2.2 o ho2)
        (matchL_length a fuel prev s cap o1 ho1)
  | alt a b iha ihb =>
    intro fuel prev s cap o ho
    rw [mustConsume, Bool.and_eq_true] at hmc
    rcases hmc with ⟨ha, hb⟩
    rcases List.mem_append.1 ho with ho | ho
    · exact iha ha fuel prev s cap o ho
    · exact ihb hb fuel prev s cap o ho
  | opt a iha => exact absurd hmc (by simp [mustConsume])
  | star a iha => exact absurd hmc (by simp [mustConsume])
  | starL a iha => exact absurd hmc (by simp [mustConsume])
  | grp a iha =>
    intro fuel prev s cap o ho
    rcases List.mem_map.1 ho with ⟨o1, ho1, rfl⟩
    exact iha hmc fuel prev s cap o1 ho1
  | bnd => exact absurd hmc (by simp [mustConsume])
  | eos => exact absurd hmc (by simp [mustConsume])

theorem matchL_startsWith {p : Char → Bool} (re : RE) (hsw : StartsWith p re) :
    ∀ (fuel : Nat) (prev : Option Char) (s : List Char) (cap : Option (List Char)),
      ∀ o ∈ matchL re fuel prev s cap, ∃ c t, s = c :: t ∧ p c = true := by
  induction hsw with
  | cls q hq =>
    intro fuel prev s cap o ho
    match s, ho with
    | c :: s', ho =>
      simp only [matchL] at ho
      split at ho
      · exact ⟨c, s', rfl, hq c (by assumption)⟩
      · exact absurd ho (List.not_mem_nil o)
  | cat_left b ha ih =>
    intro fuel prev s cap o ho
    rcases List.mem_flatMap.1 ho with ⟨o1, ho1, _⟩
    exact ih fuel prev s cap o1 ho1
  | alt ha hb iha ihb =>
    intro fuel prev s cap o ho
    rcases List.mem_append.1 ho with ho | ho
    · exact iha fuel prev s cap o ho
    · exact ihb fuel prev s cap o ho
  | grp ha ih =>
    intro fuel prev s cap o ho
    rcases List.mem_map.1 ho with ⟨o1, ho1, rfl⟩
    exact ih fuel prev s cap o1 ho1

theorem starG_cap {R : Option (List Char) → Prop}
    (m : Option Char → List Char → Option (List Char) → List MOut)
    (hm : ∀ prev s cap, R cap → ∀ o ∈ m prev s cap, R o.2.2) :
    ∀ (f : Nat) (prev : Option Char) (s : List Char) (cap : Option (List Char)),
      R cap → ∀ o ∈ starG m f prev s cap, R o.2.2 := by
  intro f
  induction f with
  | zero =>
    intro prev s cap hc o ho
    rcases List.mem_singleton.1 ho with rfl
    exact hc
  | succ f ih =>
    intro prev s cap hc o ho
    rcases List.mem_append.1 ho with ho | ho
    · rcases List.mem_flatMap.1 ho with ⟨o1, ho1, ho2⟩
      exact ih o1.1 o1.2.1 o1.2.2 (hm prev s cap hc o1 ho1) o ho2
    · rcases List.mem_singleton.1 ho with rfl
      exact hc

theorem starLG_cap {R : Option (List Char) → Prop}
    (m : Option Char → List Char → Option (List Char) → List MOut)
    (hm : ∀ prev s cap, R cap → ∀ o ∈ m prev s cap, R o.2.2) :
    ∀ (f : Nat) (prev : Option Char) (s : List Char) (cap : Option (List Char)),
      R cap → ∀ o ∈ starLG m f prev s cap, R o.2.2 := by
  intro f
  induction f with
  | zero =>
    intro prev s cap hc o ho
    rcases List.mem_singleton.1 ho with rfl
    exact hc
  | succ f ih =>
    intro prev s cap hc o ho
    rcases List.mem_cons.1 ho with rfl | ho
    · exact hc
    · rcases List.mem_flatMap.1 ho with ⟨o1, ho1, ho2⟩
      exact ih o1.1 o1.2.1 o1.2.2 (hm prev s cap hc o1 ho1) o ho2

theorem matchL_noGrp_cap (re : RE) (hg : hasGrp re = false) :
    ∀ (fuel : Nat) (prev : Option Char) (s : List Char) (cap : Option (List Char)),
      ∀ o ∈ matchL re fuel prev s cap, o.2.2 = cap := by
  induction re with
  | eps =>
    intro fuel prev s cap o ho
    rcases List.mem_singleton.1 ho with rfl; rfl
  | cls p =>
    intro fuel prev s cap o ho
    match s, ho with
    | c :: s', ho =>
      simp only [matchL] at ho
      split at ho
      · rcases List.mem_singleton.1 ho with rfl; rfl
      · exact absurd ho (List.not_mem_nil o)
  | cat a b iha ihb =>
    intro fuel prev s cap o ho
    rcases List.mem_flatMap.1 ho with ⟨o1, ho1, ho2⟩
    simp only [hasGrp, Bool.or_eq_false_iff] at hg
    rw [ihb hg.2 fuel o1.1 o1.2.1 o1.2.2 o ho2, iha hg.1 fuel prev s cap o1 ho1]
  | alt a b iha ihb =>
    intro fuel prev s cap o ho
    simp only [hasGrp, Bool.or_eq_false_iff] at hg
    rcases List.mem_append.1 ho with ho | ho
    · exact iha hg.1 fuel prev s cap o ho
    · exact ihb hg.2 fuel prev s cap o ho
  | opt a iha =>
    intro fuel prev s cap o ho
    rcases List.mem_append.1 ho with ho | ho
    · exact iha hg fuel prev s cap o ho
    · rcases List.mem_singleton.1 ho with rfl; rfl
  | star a iha =>
    intro fuel prev s cap o ho
    exact starG_cap (R := (· = cap)) (matchL a fuel)
      (fun prev' s' cap' hc o' ho' => by
        rw [iha hg fuel prev' s' cap' o' ho']; exact hc)
      fuel prev s cap rfl o ho
  | starL a iha =>
    intro fuel prev s cap o ho
    exact starLG_cap (R := (· = cap)) (matchL a fuel)
      (fun prev' s' cap' hc o' ho' => by
        rw [iha hg fuel prev' s' cap' o' ho']; exact hc)
      fuel prev s cap rfl o ho
  | grp a iha => exact absurd hg (by simp [hasGrp])
  | bnd =>
    intro fuel prev s cap o ho
    simp only [matchL] at ho
    split at ho
    · rcases List.mem_singleton.1 ho with rfl; rfl
    · exact absurd ho (List.not_mem_nil o)
  | eos =>
    intro fuel prev s cap o ho
    match s, ho with
    | [], ho => rcases List.mem_singleton.1 ho with rfl; rfl

theorem matchL_capsGood {p : Char → Bool} (re : RE) (hcg : CapsGood p re) :
    ∀ (fuel : Nat) (prev : Option Char) (s : List Char) (cap : Option (List Char)),
      GoodCap p cap → ∀ o ∈ matchL re fuel prev s cap, GoodCap p o.2.2 := by
  induction hcg with
  | base h =>
    intro fuel prev s cap hc o ho
    rw [matchL_noGrp_cap _ h fuel prev s cap o ho]
    exact hc
  | grp hs hc =>
    intro fuel prev s cap hcap o ho
    rcases List.mem_map.1 ho with ⟨o1, ho1, rfl⟩
    intro l hl
    have hlt := matchL_mustConsume _ hc fuel prev s cap o1 ho1
    rcases matchL_startsWith _ hs fuel prev s cap o1 ho1 with ⟨c, t, rfl, hpc⟩
    simp only [Option.some.injEq] at hl
    refine ⟨c, ((t.take ((c :: t).length - o1.2.1.length - 1))), ?_, hpc⟩
    rw [← hl]
    have h1 : (c :: t).length - o1.2.1.length = ((c :: t).length - o1.2.1.length - 1) + 1 := by
      simp only [List.length_cons] at *
      omega
    rw [h1]
    rfl
  | cat ha hb iha ihb =>
    intro fuel prev s cap hc o ho
    rcases List.mem_flatMap.1 ho with ⟨o1, ho1, ho2⟩
    exact ihb fuel o1.1 o1.2.1 o1.2.2 (iha fuel prev s cap hc o1 ho1) o ho2
  | alt ha hb iha ihb =>
    intro fuel prev s cap hc o ho
    rcases List.mem_append.1 ho with ho | ho
    · exact iha fuel prev s cap hc o ho
    · exact ihb fuel prev s cap hc o ho
  | opt ha iha =>
    intro fuel prev s cap hc o ho
    rcases List.mem_append.1 ho with ho | ho
    · exact iha fuel prev s cap hc o ho
    · rcases List.mem_singleton.1 ho with rfl
      exact hc
  | star ha iha =>
    intro fuel prev s cap hc o ho
    exact starG_cap (R := GoodCap p) (matchL _ fuel)
      (fun prev' s' cap' hc' o' ho' => iha fuel prev' s' cap' hc' o' ho')
      fuel prev s cap hc o ho
  | starL ha iha =>
    intro fuel prev s cap hc o ho
    exact starLG_cap (R := GoodCap p) (matchL _ fuel)
      (fun prev' s' cap' hc' o' ho' => iha fuel prev' s' cap' hc' o' ho')
      fuel prev s cap hc o ho

theorem matchL_setsCap (re : RE) (hsc : setsCap re = true) :
    ∀ (fuel : Nat) (prev : Option Char) (s : List Char) (cap : Option (List Char)),
      ∀ o ∈ matchL re fuel prev s cap, o.2.2.isSome := by
  induction re with
  | eps => exact absurd hsc (by simp [setsCap])
  | cls p => exact absurd hsc (by simp [setsCap])
  | cat a b iha ihb =>
    intro fuel prev s cap o ho
    rcases List.mem_flatMap.1 ho with ⟨o1, ho1, ho2⟩
    simp only [setsCap, Bool.or_eq_true, Bool.and_eq_true, Bool.not_eq_true'] at hsc
    rcases hsc with ⟨ha, hb⟩ | hb
    · rw [matchL_noGrp_cap b hb fuel o1.1 o1.2.1 o1.2.2 o ho2]
      exact iha ha fuel prev s cap o1 ho1
    · exact ihb hb fuel o1.1 o1.2.1 o1.2.2 o ho2
  | alt a b iha ihb =>
    intro fuel prev s cap o ho
    rw [setsCap, Bool.and_eq_true] at hsc
    rcases hsc with ⟨ha, hb⟩
    rcases List.mem_append.1 ho with ho | ho
    · exact iha ha fuel prev s cap o ho
    · exact ihb hb fuel prev s cap o ho
  | opt a iha => exact absurd hsc (by simp [setsCap])
  | star a iha => exact absurd hsc (by simp [setsCap])
  | starL a iha => exact absurd hsc (by simp [setsCap])
  | grp a iha =>
    intro fuel prev s cap o ho
    rcases List.mem_map.1 ho with ⟨o1, ho1, rfl⟩
    rfl
  | bnd => exact absurd hsc (by simp [setsCap])
  | eos => exact absurd hsc (by simp [setsCap])

/-- Every string `findall` returns for a pattern whose groups are `CapsGood`
and which always sets its capture is nonempty and starts with a `p`-character. -/
theorem findallFrom_good {p : Char → Bool} (re : RE) (hcg : CapsGood p re)
    (hsc : setsCap re = true) :
    ∀ (fuel : Nat) (prev : Option Char) (s : List Char),
      ∀ m ∈ findallFrom fuel re prev s, ∃ c t, m = c :: t ∧ p c = true := by
  intro fuel
  induction fuel with
  | zero => intro prev s m hm; exact absurd hm (List.not_mem_nil m)
  | succ fuel ih =>
    intro prev s m hm
    simp only [findallFrom] at hm
    split at hm
    · next p' s' cap heq =>
      simp only [firstMatch] at heq
      have ho1 : (p', s', cap) ∈ matchL re (s.length + 1) prev s none := by
        apply List.mem_of_mem_head?
        rw [heq]
        rfl
      have hgood : GoodCap p cap :=
        matchL_capsGood re hcg (s.length + 1) prev s none
          (fun l hl => by simp at hl) _ ho1
      have hsome : cap.isSome :=
        matchL_setsCap re hsc (s.length + 1) prev s none _ ho1
      rcases Option.isSome_iff_exists.1 hsome with ⟨l, rfl⟩
      rcases hgood l rfl with ⟨c, t, rfl, hpc⟩
      split at hm
      · rcases List.mem_cons.1 hm with rfl | hm
        · exact ⟨c, t, rfl, hpc⟩
        · exact ih p' s' m hm
      · match s, hm with
        | [], hm =>
          rcases List.mem_singleton.1 hm with rfl
          exact ⟨c, t, rfl, hpc⟩
        | ch :: rest, hm =>
          rcases List.mem_cons.1 hm with rfl | hm
          · exact ⟨c, t, rfl, hpc⟩
          · exact ih (some ch) rest m hm
    · match s, hm with
      | ch :: rest, hm => exact ih (some ch) rest m hm

/-! ### Nonemptiness of the accumulated set entries -/

theorem lexLt_irrefl : ∀ l : List Char, lexLt l l = false
  | [] => rfl
  | c :: cs => by
    simp only [lexLt, if_neg (Nat.lt_irrefl c.toNat)]
    exact lexLt_irrefl cs

theorem stripC_ne_nil (c : Char) (t : List Char) (h : isWsC c = false) :
    stripC (c :: t) ≠ [] := by
  intro habs
  simp only [stripC] at habs
  rw [List.dropWhile_cons, h] at habs
  simp only [Bool.false_eq_true, if_false, List.reverse_eq_nil_iff] at habs
  have hc : c ∈ (c :: t).reverse := List.mem_reverse.2 (List.mem_cons_self c t)
  have := List.dropWhile_eq_nil_iff.1 habs c hc
  simp [h] at this

theorem isUpperDE_not_ws (c : Char) (h : isUpperDE c = true) : (!isWsC c) = true := by
  simp only [isUpperDE, Bool.or_eq_true, Bool.and_eq_true, decide_eq_true_eq] at h
  simp only [isWsC, Bool.not_eq_true', Bool.or_eq_false_iff, decide_eq_false_iff_not]
  omega

theorem startsWith_grpTown : StartsWith (fun c => !isWsC c) (RE.cat (RE.cls isUpperDE)
    (plusRE (RE.cls isLowerDE))) :=
  StartsWith.cat_left _ (StartsWith.cls _ isUpperDE_not_ws)

theorem capsGood_grpTown : CapsGood (fun c => !isWsC c) grpTown :=
  CapsGood.grp startsWith_grpTown rfl

theorem capsGood_grpTownPair : CapsGood (fun c => !isWsC c) grpTownPair :=
  CapsGood.grp (StartsWith.cat_left _ (StartsWith.cls _ isUpperDE_not_ws)) rfl

theorem capsGood_court :
    ∀ p ∈ court_patterns, CapsGood (fun c => !isWsC c) p ∧ setsCap p = true := by
  intro p hp
  simp only [court_patterns, List.mem_cons, List.not_mem_nil, or_false] at hp
  rcases hp with rfl | rfl | rfl | rfl | rfl
  · exact ⟨CapsGood.cat (CapsGood.base rfl) (CapsGood.cat (CapsGood.base rfl)
      (CapsGood.cat (CapsGood.base rfl) (CapsGood.cat (CapsGood.base rfl)
        (CapsGood.cat capsGood_grpTownPair (CapsGood.base rfl))))), rfl⟩
  · exact ⟨CapsGood.cat (CapsGood.base rfl) (CapsGood.cat (CapsGood.base rfl)
      (CapsGood.cat (CapsGood.base rfl) (CapsGood.cat (CapsGood.base rfl)
        (CapsGood.cat capsGood_grpTown (CapsGood.base rfl))))), rfl⟩
  · exact ⟨CapsGood.cat (CapsGood.base rfl) (CapsGood.cat (CapsGood.base rfl)
      (CapsGood.cat (CapsGood.base rfl) (CapsGood.cat capsGood_grpTown
        (CapsGood.base rfl)))), rfl⟩
  · exact ⟨CapsGood.cat (CapsGood.base rfl) (CapsGood.cat (CapsGood.base rfl)
      (CapsGood.cat capsGood_grpTown (CapsGood.base rfl))), rfl⟩
  · exact ⟨CapsGood.cat (CapsGood.base rfl) (CapsGood.cat (CapsGood.base rfl)
      (CapsGood.cat capsGood_grpTown (CapsGood.base rfl))), rfl⟩

theorem locationCandidates_ne_nil (text description : String) :
    ∀ l ∈ locationCandidates text description, l ≠ [] := by
  intro l hl
  simp only [locationCandidates, List.append_assoc, List.mem_append] at hl
  rcases hl with hl | hl | hl
  · rcases List.mem_flatMap.1 hl with ⟨p, hp, hcap⟩
    rcases List.mem_filterMap.1 hcap with ⟨cap, hcapmem, heq⟩
    rcases capsGood_court p hp with ⟨hcg, hsc⟩
    rcases findallFrom_good p hcg hsc _ none _ cap hcapmem with ⟨c, t, rfl, hpc⟩
    split at heq
    · exact absurd heq (by simp)
    · have : l = stripC (c :: t) := by
        simpa using heq.symm
      subst this
      exact stripC_ne_nil c t (by simpa using hpc)
  · rcases List.mem_flatMap.1 hl with ⟨p, hp, hcap⟩
    rcases List.mem_filterMap.1 hcap with ⟨cap, hcapmem, heq⟩
    split at heq
    · next hlen =>
      have : l = stripC cap := by simpa using heq.symm
      subst this
      intro habs
      rw [habs] at hlen
      simp at hlen
    · exact absurd heq (by simp)
  · rcases List.mem_filterMap.1 hl with ⟨word, hwmem, heq⟩
    split at heq
    · next hmem =>
      have : l = word := by simpa using heq.symm
      subst this
      intro habs
      rw [habs] at hmem
      exact absurd hmem (by decide)
    · exact absurd heq (by simp)

theorem assocLookup_mem_values (table : List (String × String)) (k v : String)
    (h : assocLookup table k = some v) : v ∈ table.map Prod.snd := by
  induction table with
  | nil => simp [assocLookup] at h
  | cons kv rest ih =>
    simp only [assocLookup] at h
    split at h
    · simp only [Option.some.injEq] at h
      subst h
      simp
    · simp only [List.map_cons, List.mem_cons]
      exact Or.inr (ih h)

theorem crime_values_ne_nil : ∀ v ∈ crime_mapping.map Prod.snd, v.data ≠ [] := by
  decide

theorem crime_keyword_values_ne_nil : ∀ kv ∈ crime_keywords, kv.2.data ≠ [] := by
  decide

theorem crimeCandidates_ne_nil (text description : String) :
    ∀ l ∈ crimeCandidates text description, l ≠ [] := by
  intro l hl
  simp only [crimeCandidates, List.append_assoc, List.mem_append] at hl
  rcases hl with hl | hl | hl
  · rcases List.mem_flatMap.1 hl with ⟨p, _, hcap⟩
    rcases List.mem_flatMap.1 hcap with ⟨cap, _, hnum⟩
    rcases List.mem_filterMap.1 hnum with ⟨num, _, heq⟩
    rcases Option.map_eq_some'.1 heq with ⟨v, hv, rfl⟩
    exact crime_values_ne_nil v (assocLookup_mem_values crime_mapping (String.mk num) v hv)
  · rcases List.mem_flatMap.1 hl with ⟨pl, _, hmem⟩
    split at hmem
    · rcases List.mem_singleton.1 hmem with rfl
      decide
    · exact absurd hmem (List.not_mem_nil l)
  · rcases List.mem_flatMap.1 hl with ⟨kv, hkv, hmem⟩
    split at hmem
    · rcases List.mem_singleton.1 hmem with rfl
      exact crime_keyword_values_ne_nil kv hkv
    · exact absurd hmem (List.not_mem_nil l)

theorem sortedSet_sorted (l : List (List Char)) :
    (sortedSet l).Pairwise (fun a b => lexLt a b = true) := by
  induction l with
  | nil => simp [sortedSet]
  | cons x xs ih => exact insortD_sorted x _ ih

theorem mem_sortedSet (a : List Char) (l : List (List Char)) :
    a ∈ sortedSet l ↔ a ∈ l := by
  induction l with
  | nil => simp [sortedSet]
  | cons x xs ih =>
    simp only [sortedSet, List.foldr_cons] at *
    rw [mem_insortD, ih, List.mem_cons]

theorem mk_injective : Function.Injective String.mk :=
  fun _ _ h => congrArg String.data h

/-- The three list invariants of a `sorted(list(set(...)))` result whose
entries are all nonempty. -/
theorem sortedSet_mk_props (cands : List (List Char)) (hne : ∀ l ∈ cands, l ≠ []) :
    ((sortedSet cands).map String.mk).Pairwise (fun a b => strLt a b = true)
    ∧ "" ∉ (sortedSet cands).map String.mk
    ∧ ((sortedSet cands).map String.mk).Nodup := by
  have hsorted : ((sortedSet cands).map String.mk).Pairwise (fun a b => strLt a b = true) :=
    List.pairwise_map.2 (List.Pairwise.imp (fun h => h) (sortedSet_sorted cands))
  refine ⟨hsorted, ?_, ?_⟩
  · intro habs
    rcases List.mem_map.1 habs with ⟨a, ha, hmk⟩
    have ha0 : a = [] := congrArg String.data hmk
    subst ha0
    exact hne [] ((mem_sortedSet [] cands).1 ha) rfl
  · refine List.Pairwise.imp ?_ hsorted
    intro a b h habs
    subst habs
    rw [show strLt a a = lexLt a.data a.data from rfl, lexLt_irrefl] at h
    exact Bool.false_ne_true h

/-! ### Person-loop decomposition -/

theorem personsLoop_names (t : List Char) :
    ∀ (ns seen : List (List Char)),
      (personsLoop t seen ns).map Person.name =
        (dedupFrom seen (ns.filterMap fun n =>
          let c := stripC n
          if c ≠ [] ∧ 3 < c.length then some c else none)).map String.mk := by
  intro ns
  induction ns with
  | nil => intro seen; rfl
  | cons n rest ih =>
    intro seen
    simp only [personsLoop, List.filterMap_cons]
    by_cases hv : stripC n ≠ [] ∧ 3 < (stripC n).length
    · by_cases hseen : stripC n ∈ seen
      · rw [if_neg (by tauto), if_pos hv]
        simp only [dedupFrom, if_pos hseen]
        exact ih seen
      · rw [if_pos ⟨hv.1, hseen, hv.2⟩, if_pos hv]
        simp only [dedupFrom, if_neg hseen, List.map_cons]
        rw [ih (stripC n :: seen)]
        rfl
    · rw [if_neg (by tauto), if_neg hv]
      exact ih seen

theorem mem_dedupFrom : ∀ (l seen : List (List Char)) (x : List Char),
    x ∈ dedupFrom seen l → x ∉ seen := by
  intro l
  induction l with
  | nil => intro seen x hx; exact absurd hx (List.not_mem_nil x)
  | cons y ys ih =>
    intro seen x hx
    simp only [dedupFrom] at hx
    split at hx
    · exact ih seen x hx
    · rcases List.mem_cons.1 hx with rfl | hx
      · assumption
      · intro habs
        exact ih (y :: seen) x hx (List.mem_cons_of_mem y habs)

theorem dedupFrom_nodup : ∀ (l seen : List (List Char)), (dedupFrom seen l).Nodup := by
  intro l
  induction l with
  | nil => intro seen; exact List.nodup_nil
  | cons y ys ih =>
    intro seen
    simp only [dedupFrom]
    split
    · exact ih seen
    · refine List.nodup_cons.2 ⟨?_, ih (y :: seen)⟩
      intro habs
      exact mem_dedupFrom ys (y :: seen) y habs (List.mem_cons_self y seen)

/-! ## The claims -/

/-- Claim C1: every year the extractors return, over every strategy
(contextual scan, bare-year scan, identifier suffix, museum-number
estimate, and the version-1 extractor), lies in the range 1850..1950;
hence so does every `historicalYear` an enriched record carries. -/
theorem C1_year_range :
    (∀ (text description identifier : String) (y : Nat) (src : String),
      extract_historical_year_advanced text description identifier = (some y, src) →
      1850 ≤ y ∧ y ≤ 1950)
    ∧ (∀ (text : String) (y : Nat), extract_historical_year text = some y →
      1850 ≤ y ∧ y ≤ 1950)
    ∧ (∀ (item : Item) (now : String) (y : Nat),
      (enhance_item item now).historicalYear = some y → 1850 ≤ y ∧ y ≤ 1950) := by
  have hywc : ∀ (t d : String), ∀ p ∈ yearsWithContext t d, 1850 ≤ p.1 ∧ p.1 ≤ 1950 := by
    intro t d p hp
    rcases List.mem_flatMap.1 hp with ⟨pc, _, hcap⟩
    rcases List.mem_filterMap.1 hcap with ⟨cap, _, heq⟩
    split at heq
    · next hrange =>
      injection heq with heq
      subst heq
      exact hrange
    · exact absurd heq (by simp)
  have hmin : ∀ (ys : List Nat) (y : Nat), 1850 ≤ y ∧ y ≤ 1950 →
      (∀ z ∈ ys, 1850 ≤ z ∧ z ≤ 1950) → 1850 ≤ natMinFold y ys ∧ natMinFold y ys ≤ 1950 := by
    intro ys
    induction ys with
    | nil => intro y hy _; exact hy
    | cons z zs ih =>
      intro y hy hz
      have hmin2 : 1850 ≤ Nat.min y z ∧ Nat.min y z ≤ 1950 := by
        have hzr := hz z (List.mem_cons_self z zs)
        show 1850 ≤ min y z ∧ min y z ≤ 1950
        rcases min_choice y z with h | h <;> rw [h] <;> omega
      exact ih (Nat.min y z) hmin2 (fun w hw => hz w (List.mem_cons_of_mem z hw))
  have hmain : ∀ (text description identifier : String) (y : Nat) (src : String),
      extract_historical_year_advanced text description identifier = (some y, src) →
      1850 ≤ y ∧ y ≤ 1950 := by
    intro t d i y src h
    simp only [extract_historical_year_advanced] at h
    split at h
    · -- identifier fallback
      split at h
      · exact absurd h (by simp)
      · split at h
        · split at h
          · next hrange =>
            injection h with h1 h2
            injection h1 with h1
            subst h1
            exact hrange
          · exact absurd h (by simp)
        · exact absurd h (by simp)
    · split at h
      · -- strategy 1: head of the sorted candidate list
        next c rest hs =>
        injection h with h1 h2
        injection h1 with h1
        subst h1
        have hc := (sortStable_head_min candLe candLe_total candLe_trans _ c rest hs).1
        exact hywc t d c hc
      · split at h
        · -- strategy 2: minimum of the bare years in range
          next y1 ys hf =>
          injection h with h1 h2
          injection h1 with h1
          subst h1
          have hall : ∀ z ∈ y1 :: ys, 1850 ≤ z ∧ z ≤ 1950 := by
            intro z hz
            rw [← hf] at hz
            have := (List.mem_filter.1 hz).2
            simp only [Bool.and_eq_true, decide_eq_true_eq] at this
            exact this
          exact hmin ys y1 (hall y1 (List.mem_cons_self y1 ys)) fun z hz =>
            hall z (List.mem_cons_of_mem y1 hz)
        · -- strategy 3: decade estimates
          split at h
          · split at h
            · injection h with h1 h2
              injection h1 with h1
              subst h1
              omega
            · split at h
              · injection h with h1 h2
                injection h1 with h1
                subst h1
                omega
              · split at h
                · injection h with h1 h2
                  injection h1 with h1
                  subst h1
                  omega
                · injection h with h1 h2
                  injection h1 with h1
                  subst h1
                  omega
          · exact absurd h (by simp)
  refine ⟨hmain, ?_, ?_⟩
  · intro t y h
    simp only [extract_historical_year] at h
    split at h
    · exact absurd h (by simp)
    · split at h
      · exact absurd h (by simp)
      · next y1 ys hf =>
        injection h with h1
        subst h1
        have hall : ∀ z ∈ y1 :: ys, 1850 ≤ z ∧ z ≤ 1950 := by
          intro z hz
          rw [← hf] at hz
          rcases List.mem_flatMap.1 hz with ⟨p, _, hcap⟩
          rcases List.mem_filterMap.1 hcap with ⟨cap, _, heq⟩
          split at heq
          · next hrange =>
            injection heq with heq
            subst heq
            exact hrange
          · exact absurd heq (by simp)
        exact hmin ys y1 (hall y1 (List.mem_cons_self y1 ys)) fun z hz =>
          hall z (List.mem_cons_of_mem y1 hz)
  · intro item now y h
    have hproj : (enhance_item item now).historicalYear =
        (extract_historical_year_advanced item.fulltext item.description
          item.identifier).1 := rfl
    rw [hproj] at h
    exact hmain item.fulltext item.description item.identifier y
      (extract_historical_year_advanced item.fulltext item.description
        item.identifier).2 (Prod.ext h rfl)

/-- Witness for C1 at concrete inputs: a bare year in the fulltext, a birth
year for the version-1 extractor, and a museum-number estimate through
`enhance_item`. -/
theorem C1_year_range_witness :
    ((1850 ≤ 1905 ∧ 1905 ≤ 1950) ∧ (1850 ≤ 1880 ∧ 1880 ≤ 1950))
    ∧ (1850 ≤ 1900 ∧ 1900 ≤ 1950) :=
  ⟨⟨C1_year_range.1 "1905" "" "" 1905 "crime" (by decide),
    C1_year_range.2.1 "geb. 1880" 1880 (by decide)⟩,
   C1_year_range.2.2 ⟨"", "KM-KK.5", "", "", ""⟩ "" 1900 (by decide)⟩

/-- Claim C2 (code bug): on an empty batch both statistics counters are all
zero and the coverage computation of `process_archive` divides by
`statistics['total'] = 0` with no guard, so a `ZeroDivisionError` is raised
instead of zero coverage ratios being reported. -/
theorem C2_empty_batch_division_error :
    countersOf [] = ⟨0, 0, 0, 0, 0, 0, 0⟩
    ∧ computeCoverage (countersOf []) = Except.error "ZeroDivisionError" :=
  ⟨rfl, rfl⟩

/-- Counterexample to C4: `enhance_item` stores `datetime.now().isoformat()`
in the `extractedAt` field of its output, so two runs over the same input
record at different times produce different records; the output is not
byte-identical and a timestamp does affect the produced record. -/
theorem C4_counterexample :
    (enhance_item ⟨"", "", "", "", ""⟩ "2024-01-01T00:00:00").extractedAt
      = "2024-01-01T00:00:00"
    ∧ (enhance_item ⟨"", "", "", "", ""⟩ "2024-01-01T00:00:01").extractedAt
      = "2024-01-01T00:00:01"
    ∧ ((("2024-01-01T00:00:00" : String) = "2024-01-01T00:00:01") ↔ False) :=
  ⟨rfl, rfl, by decide⟩

/-- Claim C4 as amended: except for the `extractedAt` timestamp, enrichment
is deterministic — every extracted field of `enhance_item` is a pure
function of the original input fields, independent of the clock value. -/
theorem C4_deterministic_core : ∀ (item : Item) (now1 now2 : String),
    enhancedCore (enhance_item item now1) = enhancedCore (enhance_item item now2) :=
  fun _ _ _ => rfl

/-- Counterexample to C5: enriching the batch [museum-number record,
dateless record] and resorting puts the undated record (historicalYear
absent, sort key (False, 9999)) before the estimated-dated record (sort
key (True, 1900)) — so undated records do not come after all dated
records. -/
theorem C5_counterexample :
    (processArchiveRecords [⟨"", "KM-KK.5", "", "", ""⟩, ⟨"", "", "Akte", "", ""⟩] "").map
        (fun e => (e.historicalYear, e.dateSource))
      = [(none, none), (some 1900, some "estimated")] := by
  decide

/-- Claim C5 as amended: the orchestrator returns the enriched records
stably sorted by the key `(dateSource == 'estimated', historicalYear with
undated records read as 9999)` — exactly-dated records first in ascending
year order, then undated records (at key 9999, still in the non-estimated
group), then estimated-dated records in ascending year order. -/
theorem C5_amended_sort : ∀ (items : List Item) (now : String),
    (processArchiveRecords items now).Pairwise (fun a b => enhancedLe a b = true)
    ∧ (processArchiveRecords items now).Perm (items.map fun item => enhance_item item now) :=
  fun _ _ =>
    ⟨sortStable_sorted enhancedLe enhancedLe_total enhancedLe_trans _,
     sortStable_perm enhancedLe _⟩

/-- Counterexample to C6: on the record with fulltext
"Gericht Graz, Urteil v. 12.03.1905" the enriched `dateSource` is "crime",
not a court tag: the bare-year rule (context `crime`, priority 2) also
matches 1905 and outranks the `Urteil`-anchored rule (context `court`,
priority 3). -/
theorem C6_counterexample :
    (enhance_item ⟨"", "", "Gericht Graz, Urteil v. 12.03.1905", "", ""⟩ "").dateSource
      = some "crime" ∧ ((("crime" : String) = "court") ↔ False) :=
  ⟨by decide, by decide⟩

/-- Claim C6 as amended: the record is dated 1905 and located in Graz as
claimed, but the date provenance tag is "crime" (the generic bare-year
context), not "court". -/
theorem C6_amended :
    (enhance_item ⟨"", "", "Gericht Graz, Urteil v. 12.03.1905", "", ""⟩ "").historicalYear
      = some 1905
    ∧ (enhance_item ⟨"", "", "Gericht Graz, Urteil v. 12.03.1905", "", ""⟩ "").dateSource
      = some "crime"
    ∧ (enhance_item ⟨"", "", "Gericht Graz, Urteil v. 12.03.1905", "", ""⟩ "").locations
      = some ["Graz"] :=
  ⟨by decide, by decide, by decide⟩

/-- Counterexample to C7: the identifier fallback runs only when fulltext
and description are both empty; a record whose text is nonempty but carries
no date signal ("Akte") is returned undated even though its identifier is
"o:km.1920". -/
theorem C7_counterexample :
    extract_historical_year_advanced "Akte" "" "o:km.1920" = (none, "none")
    ∧ ((((none, "none") : Option Nat × String) = (some 1920, "identifier")) ↔ False) :=
  ⟨by decide, by decide⟩

/-- Claim C7 as amended: when no text is available at all (fulltext and
description both empty), the year is taken from the trailing 4-digit group
of the identifier and tagged "identifier". -/
theorem C7_amended :
    extract_historical_year_advanced "" "" "o:km.1920" = (some 1920, "identifier") := by
  decide

/-- Claim C3: when the contextual scan yields candidates, the extractor
returns a candidate whose `(priority, year)` key is minimal under the
lexicographic order — so lower-priority-rank contexts win, the earliest
year wins within one context rank, and the concrete ranks order birth
before crime before court before death before generic dates. -/
theorem C3_context_priority : ∀ text description identifier : String,
    yearsWithContext text description ≠ [] →
    ∃ y c, extract_historical_year_advanced text description identifier = (some y, c)
      ∧ (y, c) ∈ yearsWithContext text description
      ∧ (∀ p ∈ yearsWithContext text description,
          pairLe (candKey (y, c)) (candKey p) = true)
      ∧ (∀ p ∈ yearsWithContext text description, p.2 = c → y ≤ p.1)
      ∧ ctxPriority "birth" < ctxPriority "crime"
      ∧ ctxPriority "crime" < ctxPriority "court"
      ∧ ctxPriority "court" < ctxPriority "death"
      ∧ ctxPriority "death" < ctxPriority "date" := by
  intro t d i hne
  have hem : ¬ (t = "" ∧ d = "") := by
    rintro ⟨rfl, rfl⟩
    exact hne (by decide)
  cases hs : sortStable candLe (yearsWithContext t d) with
  | nil =>
    have hperm := sortStable_perm candLe (yearsWithContext t d)
    rw [hs] at hperm
    exact absurd hperm.symm.eq_nil hne
  | cons c rest =>
    have hhead := sortStable_head_min candLe candLe_total candLe_trans _ c rest hs
    refine ⟨c.1, c.2, ?_, ?_, ?_, ?_, by decide, by decide, by decide, by decide⟩
    · simp only [extract_historical_year_advanced, if_neg hem, hs]
    · exact hhead.1
    · intro p hp
      exact hhead.2 p hp
    · intro p hp hctx
      have := hhead.2 p hp
      simp only [candLe, candKey, pairLe, Bool.or_eq_true, Bool.and_eq_true,
        decide_eq_true_eq] at this
      rw [hctx] at this
      omega

/-- Witness for C3: the text "geb. 1880 gestorben 1875" yields both a birth
candidate (1880) and a death candidate with an earlier year (1875); the
birth context outranks it. -/
theorem C3_context_priority_witness :
    ∃ y c, extract_historical_year_advanced "geb. 1880 gestorben 1875" "" ""
        = (some y, c)
      ∧ (y, c) ∈ yearsWithContext "geb. 1880 gestorben 1875" ""
      ∧ (∀ p ∈ yearsWithContext "geb. 1880 gestorben 1875" "",
          pairLe (candKey (y, c)) (candKey p) = true)
      ∧ (∀ p ∈ yearsWithContext "geb. 1880 gestorben 1875" "", p.2 = c → y ≤ p.1)
      ∧ ctxPriority "birth" < ctxPriority "crime"
      ∧ ctxPriority "crime" < ctxPriority "court"
      ∧ ctxPriority "court" < ctxPriority "death"
      ∧ ctxPriority "death" < ctxPriority "date" :=
  C3_context_priority "geb. 1880 gestorben 1875" "" "" (by decide)

/-! ### Bounds for the quality score -/

theorem qualityScore_nonneg (a b c d e f : Bool) : 0 ≤ qualityScore a b c d e f := by
  have h1 : (0:Rat) ≤ if a then (if !b then 3 / 10 else 15 / 100) else 0 := by
    split
    · split <;> norm_num
    · exact le_refl 0
  have h2 : (0:Rat) ≤ if c then 25 / 100 else 0 := by split <;> norm_num
  have h3 : (0:Rat) ≤ if d then 2 / 10 else 0 := by split <;> norm_num
  have h4 : (0:Rat) ≤ if e then 15 / 100 else 0 := by split <;> norm_num
  have h5 : (0:Rat) ≤ if f then 1 / 10 else 0 := by split <;> norm_num
  exact add_nonneg (add_nonneg (add_nonneg (add_nonneg h1 h2) h3) h4) h5

theorem pyRound2_mono {a b : Rat} (h : a ≤ b) : pyRound2 a ≤ pyRound2 b := by
  have hf : (⌊a * 100 + 1 / 2⌋ : Int) ≤ ⌊b * 100 + 1 / 2⌋ :=
    Int.floor_le_floor (by linarith)
  exact (div_le_div_iff_of_pos_right (by norm_num)).2 (Int.cast_le.2 hf)

theorem pyRound2_bounds {q : Rat} (h0 : 0 ≤ q) (h1 : q ≤ 1) :
    0 ≤ pyRound2 q ∧ pyRound2 q ≤ 1 := by
  constructor
  · apply div_nonneg _ (by norm_num)
    have : (0:Int) ≤ ⌊q * 100 + 1 / 2⌋ := Int.le_floor.2 (by push_cast; linarith)
    exact_mod_cast this
  · simp only [pyRound2]
    rw [div_le_one (by norm_num)]
    have hle : (⌊q * 100 + 1 / 2⌋ : Int) ≤ ⌊(201 : Rat) / 2⌋ :=
      Int.floor_le_floor (by linarith)
    have h201 : (⌊(201 : Rat) / 2⌋ : Int) = 100 := by
      rw [Int.floor_eq_iff]
      norm_num
    rw [h201] at hle
    exact_mod_cast hle

theorem quality_in_unit (a b c d e f : Bool) :
    0 ≤ pyRound2 (min (qualityScore a b c d e f) 1)
    ∧ pyRound2 (min (qualityScore a b c d e f) 1) ≤ 1 :=
  pyRound2_bounds (le_min (qualityScore_nonneg a b c d e f) zero_le_one)
    (min_le_right _ _)

/-- Claim C9: `extractionQuality` always lies in [0, 1], and the final
quality value (capped at 1 and rounded to two decimals) never decreases
when any one additional signal — year (exact or estimated), crimes,
locations, persons, or a successful classification — is detected on an
otherwise identical record. -/
theorem C9_quality :
    (∀ (item : Item) (now : String),
      0 ≤ (enhance_item item now).extractionQuality
      ∧ (enhance_item item now).extractionQuality ≤ 1)
    ∧ (∀ b c d e f, pyRound2 (min (qualityScore false b c d e f) 1)
        ≤ pyRound2 (min (qualityScore true b c d e f) 1))
    ∧ (∀ a b d e f, pyRound2 (min (qualityScore a b false d e f) 1)
        ≤ pyRound2 (min (qualityScore a b true d e f) 1))
    ∧ (∀ a b c e f, pyRound2 (min (qualityScore a b c false e f) 1)
        ≤ pyRound2 (min (qualityScore a b c true e f) 1))
    ∧ (∀ a b c d f, pyRound2 (min (qualityScore a b c d false f) 1)
        ≤ pyRound2 (min (qualityScore a b c d true f) 1))
    ∧ (∀ a b c d e, pyRound2 (min (qualityScore a b c d e false) 1)
        ≤ pyRound2 (min (qualityScore a b c d e true) 1)) := by
  have hmono : ∀ {q q' : Rat}, q ≤ q' →
      pyRound2 (min q 1) ≤ pyRound2 (min q' 1) :=
    fun h => pyRound2_mono (min_le_min h (le_refl 1))
  have hterm0 : ∀ (v : Rat), 0 ≤ v →
      (if (false : Bool) then v else 0) ≤ (if (true : Bool) then v else 0) := by
    intro v hv
    simpa using hv
  refine ⟨?_, ?_, ?_, ?_, ?_, ?_⟩
  · intro item now
    exact quality_in_unit _ _ _ _ _ _
  · intro b c d e f
    apply hmono
    refine add_le_add (add_le_add (add_le_add (add_le_add ?_ le_rfl) le_rfl) le_rfl) le_rfl
    exact hterm0 _ (by split <;> norm_num)
  · intro a b d e f
    apply hmono
    refine add_le_add (add_le_add (add_le_add (add_le_add le_rfl ?_) le_rfl) le_rfl) le_rfl
    exact hterm0 _ (by norm_num)
  · intro a b c e f
    apply hmono
    refine add_le_add (add_le_add (add_le_add le_rfl ?_) le_rfl) le_rfl
    exact hterm0 _ (by norm_num)
  · intro a b c d f
    apply hmono
    refine add_le_add (add_le_add le_rfl ?_) le_rfl
    exact hterm0 _ (by norm_num)
  · intro a b c d e
    apply hmono
    refine add_le_add le_rfl ?_
    exact hterm0 _ (by norm_num)

/-- Claim C8: `crimeType` and `locations` are strictly sorted in the
code-point lexicographic order, contain no duplicates and no empty
entries, and are the empty list (never null) when nothing matches. -/
theorem C8_sorted_lists :
    (∀ text description : String,
      ((extract_crime_types_advanced text description).Pairwise
          (fun a b => strLt a b = true)
        ∧ "" ∉ extract_crime_types_advanced text description
        ∧ (extract_crime_types_advanced text description).Nodup)
      ∧ ((extract_locations_advanced text description).Pairwise
          (fun a b => strLt a b = true)
        ∧ "" ∉ extract_locations_advanced text description
        ∧ (extract_locations_advanced text description).Nodup))
    ∧ extract_crime_types_advanced "" "" = []
    ∧ extract_locations_advanced "" "" = [] := by
  refine ⟨?_, rfl, rfl⟩
  intro t d
  constructor
  · simp only [extract_crime_types_advanced]
    split
    · simp
    · exact sortedSet_mk_props _ (crimeCandidates_ne_nil t d)
  · simp only [extract_locations_advanced]
    split
    · simp
    · exact sortedSet_mk_props _ (locationCandidates_ne_nil t d)

/-- Counterexample to C10: in
"Angeklagter: Huber F. Täter: Maier G." the name "Huber F." occurs first
(position 13, before "Maier G." at position 29), yet the extractor returns
"Maier G." first, because the `Täter:` pattern is listed before the
`Angeklagter:` pattern — the order is not first-seen position in the text. -/
theorem C10_counterexample :
    (extract_persons_advanced "Angeklagter: Huber F. Täter: Maier G.").map Person.name
      = ["Maier G.", "Huber F."]
    ∧ firstOcc "Angeklagter: Huber F. Täter: Maier G.".data "Huber F.".data = some 13
    ∧ firstOcc "Angeklagter: Huber F. Täter: Maier G.".data "Maier G.".data = some 29
    ∧ (13 : Nat) < 29 :=
  ⟨by decide, by decide, by decide, by decide⟩

/-- Claim C10 as amended: the returned person names are pairwise distinct
(case-sensitive deduplication of the stripped captures), and the records
are ordered by name-pattern index first and only within one pattern by
match position: the name stream is the concatenation of each pattern's
matches, filtered to stripped names longer than three characters, with
first occurrences kept. -/
theorem C10_person_names : ∀ text : String,
    ((extract_persons_advanced text).map Person.name).Nodup
    ∧ (extract_persons_advanced text).map Person.name
      = (dedupFrom [] (validNameStream text.data)).map String.mk := by
  intro text
  by_cases ht : text = ""
  · subst ht
    exact ⟨List.nodup_nil, by decide⟩
  · have heq : (extract_persons_advanced text).map Person.name
        = (dedupFrom [] (validNameStream text.data)).map String.mk := by
      simp only [extract_persons_advanced, if_neg ht]
      exact personsLoop_names text.data (personNameStream text.data) []
    refine ⟨?_, heq⟩
    rw [heq]
    exact (dedupFrom_nodup _ []).map mk_injective

end KM

